import Mathlib

/-!
# Verification of the HOI4 world-map loader core

This development embeds, in Lean 4, the id-reconciliation, geometry,
cross-entity validation and diffing algorithms of the world-map loader
(`src/previewdef/worldmap/loader/states.ts`,
`src/previewdef/worldmap/loader/supplyarea.ts`, the strategic-region
loader, and the diffing part of the world-map webview controller),
and proves properties of the embedded code.

Conventions of the embedding:

* JavaScript numbers that hold ids, sizes and coordinates are embedded as
  `Int` (all the embedded code paths only ever produce integer values).
* JavaScript sparse arrays indexed by (possibly negative) ids are embedded
  as functions `Int → Option α`: `arr[k] = v` becomes a functional update
  and a missing entry is `none`.  This matches JavaScript semantics where
  a negative index is an ordinary object property.
* Mutation of a `warnings` array is embedded by returning the list of
  warnings appended by the function, in push order.
* Localized warning texts (the `localize(key, template, args...)` calls)
  are embedded as an inductive type carrying the message key's numeric
  arguments, so that two warnings are equal exactly when they have the
  same message and the same interpolated data.
* Record fields that are merely carried through the embedded algorithms
  and never read by them (state name, manpower, category, owner, cores,
  impassable, victory points, tokens) are elided from the record
  structures; every field that any embedded code path reads is present.
* A JavaScript `throw` is embedded as `Except.error`.
-/

/-- A rectangle `{x, y, w, h}` (the `Zone` type of `definitions.ts`). -/
structure Zone where
  x : Int
  y : Int
  w : Int
  h : Int
  deriving Repr, DecidableEq

/-- A point `{x, y}`. -/
structure Point where
  x : Int
  y : Int
  deriving Repr, DecidableEq

/-- One adjacency edge of a province; `type` is the edge kind
(`'impassable'` edges are excluded from contiguity traversal).
`toId` embeds the source field `to` (a reserved token in Lean). -/
structure ProvinceEdge where
  toId : Int
  type : String
  deriving Repr, DecidableEq

/-- A province as read by the embedded code: color, terrain kind
(`"sea"` matters for validation), adjacency edges and derived region
data used by geometry merging. -/
structure Province where
  color : Int
  type : String
  edges : List ProvinceEdge
  boundingBox : Zone
  centerOfMass : Point
  mass : Int
  deriving Repr, DecidableEq

/-- One entry of a warning's `source` list: `{type, id, color?}`. -/
structure WarningSource where
  type : String
  id : Int
  color : Option Int := none
  deriving Repr, DecidableEq

/-- The localized warning message together with its interpolated
arguments.  Each constructor corresponds to one `localize` key used by
the embedded code; the constructor arguments are the values interpolated
into the message template, so two texts are equal iff the rendered
strings are equal. -/
inductive WText where
  /-- "There're more than one states using state id {0}." -/
  | stateIdConflict (id : Int)
  /-- "State with id {0} doesn't exist." where `{0}` renders as the single
  id when `startId = endId` and as "startId-endId" otherwise. -/
  | stateNotExist (startId endId : Int)
  /-- "Province {0} used in state {1} doesn't exist." -/
  | stateProvinceNotExist (provinceId stateId : Int)
  /-- "State {0} in doesn't have valid provinces." -/
  | stateNoValidProvinces (stateId : Int)
  /-- "State {0} is too large: {1}x{2}." -/
  | stateTooLarge (stateId w h : Int)
  /-- "Province {0} exists in multiple states: {1}, {2}" -/
  | provinceInMultiStates (provinceId firstStateId secondStateId : Int)
  /-- "Sea province {0} shouldn't belong to a state." -/
  | stateHasSea (provinceId : Int)
  /-- "Province {0} used in strategic region {1} doesn't exist." -/
  | srProvinceNotExist (provinceId srId : Int)
  /-- "Strategic region {0} in doesn't have valid provinces." -/
  | srNoValidProvinces (srId : Int)
  /-- "State {0} used in supply area {1} doesn't exist." -/
  | stateInSupplyAreaNotExist (stateId supplyAreaId : Int)
  /-- "Supply area {0} doesn't have valid states." -/
  | supplyAreaNoValidStates (supplyAreaId : Int)
  /-- "State {0} exists in multiple supply areas: {1}, {2}." -/
  | stateInMultipleSupplyAreas (stateId firstSaId secondSaId : Int)
  /-- "States in supply area {0} are not contiguous: {1}, {2}." -/
  | statesNotContiguous (supplyAreaId badA badB : Int)
  /-- "State {0} is not in any supply area." -/
  | stateNoSupplyArea (stateId : Int)
  deriving Repr, DecidableEq

/-- A structured warning `{source, relatedFiles, text}`
(the `Warning` type of `definitions.ts`). -/
structure Warning where
  source : List WarningSource
  relatedFiles : List String
  text : WText
  deriving Repr, DecidableEq

/-- A state record before geometry is attached
(`StateNoBoundingBox` in `states.ts`), restricted to the fields the
embedded algorithms read: id, source file and declared province ids. -/
structure RawState where
  id : Int
  file : String
  provinces : List Int
  deriving Repr, DecidableEq

namespace SortStates

/-- Accumulator of the placement loop of `sortStates`
(`states.ts` lines 166-184): the dense array under construction, the
running synthetic-id counter `badStateId` and the warnings pushed so
far. -/
structure SortAcc where
  res : Int → Option RawState
  badId : Int
  ws : List Warning

/-- One iteration of `states.forEach(...)` in `sortStates`
(`states.ts` lines 168-184): a record with id `-1` receives the current
synthetic id (post-decrementing the counter); a record whose (possibly
just assigned) id is already occupied triggers a conflict warning
referencing both files and is reassigned the next synthetic id; the
record is then stored at its final id. -/
def sortStep (acc : SortAcc) (p : RawState) : SortAcc :=
  let p1 := if p.id = -1 then { p with id := acc.badId } else p
  let badId1 := if p.id = -1 then acc.badId - 1 else acc.badId
  match acc.res p1.id with
  | some existing =>
      let w : Warning :=
        { source := [⟨"state", badId1, none⟩]
          relatedFiles := [p1.file, existing.file]
          text := .stateIdConflict p1.id }
      let p2 := { p1 with id := badId1 }
      { res := fun k => if k = p2.id then some p2 else acc.res k
        badId := badId1 - 1
        ws := acc.ws ++ [w] }
  | none =>
      { res := fun k => if k = p1.id then some p1 else acc.res k
        badId := badId1
        ws := acc.ws }

/-- `states.reduce((p, c) => c.id > p ? c.id : p, 0)`. -/
def maxStateId (states : List RawState) : Int :=
  states.foldl (fun p c => if c.id > p then c.id else p) 0

/-- The gap warning pushed when the scan of `sortStates` reaches a
present id `i` after the missing run `startId..endId` (so `endId = i - 1`). -/
def gapWarning (i startId endId : Int) : Warning :=
  { source := [⟨"state", i, none⟩]
    relatedFiles := []
    text := .stateNotExist startId endId }

/-- The gap-scan loop of `sortStates` (`states.ts` lines 186-205),
walking `i` upward with `fuel` remaining iterations and
`pending = lastNotExistStateId`. -/
def gapGo (res : Int → Option RawState) : Nat → Int → Option Int → List Warning
  | 0, _, _ => []
  | fuel + 1, i, pending =>
    if (res i).isSome then
      match pending with
      | some s => gapWarning i s (i - 1) :: gapGo res fuel (i + 1) none
      | none => gapGo res fuel (i + 1) none
    else
      match pending with
      | some s => gapGo res fuel (i + 1) (some s)
      | none => gapGo res fuel (i + 1) (some i)

/-- The gap scan `for (let i = 1; i <= maxStateId; i++) ...`. -/
def gapScan (res : Int → Option RawState) (maxId : Int) : List Warning :=
  gapGo res maxId.toNat 1 none

/-- Result of `sortStates`: the dense array (with negative synthetic
slots), the final `badStateId` counter and all warnings pushed. -/
structure SortStatesResult where
  sortedStates : Int → Option RawState
  badStateId : Int
  warnings : List Warning

/-- `sortStates` of `states.ts` (lines 160-211): fails when the maximum
raw id exceeds 10000, otherwise places every record, then emits ranged
gap warnings for missing ids in `[1, maxStateId]`. -/
def sortStates (states : List RawState) : Except Int SortStatesResult :=
  let maxId := maxStateId states
  if maxId > 10000 then .error maxId
  else
    let a := states.foldl sortStep ⟨fun _ => none, -1, []⟩
    .ok ⟨a.res, a.badId, a.ws ++ gapScan a.res maxId⟩

end SortStates

namespace SortStates

/-- `true` iff a warning is an id-conflict warning. -/
def isConflictW (w : Warning) : Bool :=
  match w.text with
  | .stateIdConflict _ => true
  | _ => false

theorem foldl_max_le {states : List RawState} {c a : Int}
    (ha : a ≤ c) (h : ∀ p ∈ states, p.id ≤ c) :
    states.foldl (fun p c => if c.id > p then c.id else p) a ≤ c := by
  induction states generalizing a with
  | nil => simpa using ha
  | cons p T ih =>
      simp only [List.foldl_cons]
      apply ih
      · by_cases hp : p.id > a
        · simpa [hp] using h p (by simp)
        · simpa [hp] using ha
      · intro q hq; exact h q (by simp [hq])

theorem maxStateId_le {states : List RawState} {c : Int}
    (hc : 0 ≤ c) (h : ∀ p ∈ states, p.id ≤ c) : maxStateId states ≤ c :=
  foldl_max_le hc h

theorem foldl_max_init_le {states : List RawState} {a : Int} :
    a ≤ states.foldl (fun p c => if c.id > p then c.id else p) a := by
  induction states generalizing a with
  | nil => simp
  | cons p T ih =>
      simp only [List.foldl_cons]
      refine le_trans ?_ ih
      by_cases hp : p.id > a
      · simp [hp]; omega
      · simp [hp]

theorem maxStateId_nonneg (states : List RawState) : 0 ≤ maxStateId states :=
  foldl_max_init_le

/-- Every warning produced by the gap scan is a ranged `stateNotExist`
warning; in particular none of them is a conflict warning. -/
theorem gapGo_isConflictW {res : Int → Option RawState} :
    ∀ (fuel : Nat) (i : Int) (pending : Option Int),
      ∀ w ∈ gapGo res fuel i pending, isConflictW w = false := by
  intro fuel
  induction fuel with
  | zero => intro i pending w hw; simp [gapGo] at hw
  | succ n ih =>
      intro i pending w hw
      unfold gapGo at hw
      by_cases hres : (res i).isSome
      · simp only [hres, if_pos] at hw
        cases pending with
        | some s =>
            rcases List.mem_cons.mp hw with h | h
            · subst h; rfl
            · exact ih _ _ w h
        | none => exact ih _ _ w hw
      · simp only [hres, if_neg, Bool.false_eq_true, not_false_iff] at hw
        cases pending with
        | some s => exact ih _ _ w hw
        | none => exact ih _ _ w hw

end SortStates

namespace SortStates

/-- Folding the placement step over records whose ids are pairwise
distinct, different from `-1` and not yet occupied inserts every record
at its own id and produces no warning and no synthetic id. -/
theorem foldl_sortStep_plain (L : List RawState) (acc : SortAcc)
    (hnd : (L.map RawState.id).Nodup)
    (hL : ∀ p ∈ L, p.id ≠ -1 ∧ acc.res p.id = none) :
    (L.foldl sortStep acc).badId = acc.badId ∧
    (L.foldl sortStep acc).ws = acc.ws ∧
    ∀ k, (L.foldl sortStep acc).res k =
      (match L.find? (fun p => p.id == k) with
       | some p => some p
       | none => acc.res k) := by
  induction L generalizing acc with
  | nil => simp
  | cons h T ih =>
      obtain ⟨hne, hfree⟩ := hL h (by simp)
      have hstep : sortStep acc h =
          { res := fun k => if k = h.id then some h else acc.res k
            badId := acc.badId
            ws := acc.ws } := by
        unfold sortStep
        simp only [hne, if_neg, if_false, hfree]
      have hndT : (T.map RawState.id).Nodup := (List.nodup_cons.mp hnd).2
      have hid_not_mem : h.id ∉ T.map RawState.id := (List.nodup_cons.mp hnd).1
      have hT : ∀ p ∈ T, p.id ≠ -1 ∧ (sortStep acc h).res p.id = none := by
        intro p hp
        refine ⟨(hL p (by simp [hp])).1, ?_⟩
        rw [hstep]
        have hpid : p.id ≠ h.id := by
          intro hEq
          exact hid_not_mem (hEq ▸ List.mem_map_of_mem RawState.id hp)
        simp only [hpid, if_neg, if_false]
        exact (hL p (by simp [hp])).2
      obtain ⟨ihb, ihw, ihr⟩ := ih (sortStep acc h) hndT hT
      refine ⟨?_, ?_, ?_⟩
      · rw [List.foldl_cons, ihb, hstep]
      · rw [List.foldl_cons, ihw, hstep]
      · intro k
        rw [List.foldl_cons, ihr k]
        rcases hfind : T.find? (fun p => p.id == k) with _ | q
        · simp only [List.find?_cons, hfind]
          by_cases hk : h.id = k
          · simp only [hk, beq_self_eq_true]
            rw [hstep]; simp [hk]
          · have : (h.id == k) = false := by simp [hk]
            simp only [this]
            rw [hstep]
            simp only [hfind]
            have : ¬ k = h.id := fun hEq => hk hEq.symm
            simp [this]
        · have hqk : q.id = k := by
            have := List.find?_some hfind
            simpa using this
          have hq_mem : q ∈ T := List.mem_of_find?_eq_some hfind
          have hk_ne : (h.id == k) = false := by
            have : h.id ≠ k := by
              intro hEq
              exact hid_not_mem (by
                rw [hEq, ← hqk]
                exact List.mem_map_of_mem RawState.id hq_mem)
            simp [this]
          simp [List.find?_cons, hk_ne, hfind]

end SortStates

namespace SortStates

/-- Folding the placement step over records that all carry the sentinel
id `-1` assigns synthetic ids decrementing from the current counter:
the `j`-th such record is stored at `acc.badId - j` with that id, the
counter drops by the number of records, and no warning is pushed
(provided all slots at or below the counter are free). -/
theorem foldl_sortStep_bad (B : List RawState) (acc : SortAcc)
    (hbad : ∀ p ∈ B, p.id = -1)
    (hfree : ∀ k, k ≤ acc.badId → acc.res k = none) :
    (B.foldl sortStep acc).badId = acc.badId - B.length ∧
    (B.foldl sortStep acc).ws = acc.ws ∧
    (∀ j (h : j < B.length),
      (B.foldl sortStep acc).res (acc.badId - j) =
        some { B.get ⟨j, h⟩ with id := acc.badId - j }) ∧
    (∀ k, (acc.badId < k ∨ k ≤ acc.badId - B.length) →
      (B.foldl sortStep acc).res k = acc.res k) := by
  induction B generalizing acc with
  | nil => simp
  | cons b T ih =>
      have hb : b.id = -1 := hbad b (by simp)
      have hstep : sortStep acc b =
          { res := fun k => if k = acc.badId then some { b with id := acc.badId } else acc.res k
            badId := acc.badId - 1
            ws := acc.ws } := by
        unfold sortStep
        simp only [hb, if_pos, if_true, hfree acc.badId le_rfl]
      have hfree' : ∀ k, k ≤ (sortStep acc b).badId → (sortStep acc b).res k = none := by
        intro k hk
        rw [hstep] at hk ⊢
        simp only at hk ⊢
        have : ¬ k = acc.badId := by omega
        simp only [this, if_neg, if_false]
        exact hfree k (by omega)
      obtain ⟨ihb, ihw, ihget, ihout⟩ := ih (sortStep acc b) (fun p hp => hbad p (by simp [hp])) hfree'
      refine ⟨?_, ?_, ?_, ?_⟩
      · rw [List.foldl_cons, ihb, hstep]
        simp only [List.length_cons]
        omega
      · rw [List.foldl_cons, ihw, hstep]
      · have hbadid : (sortStep acc b).badId = acc.badId - 1 := by rw [hstep]
        intro j hj
        rw [List.foldl_cons]
        cases j with
        | zero =>
            have hout := ihout acc.badId (by rw [hbadid]; left; omega)
            simp only [Nat.cast_zero, Int.sub_zero, List.get_cons_zero]
            rw [hout, hstep]
            simp
        | succ n =>
            have hn : n < T.length := by simpa [Nat.succ_lt_succ_iff] using hj
            have hg := ihget n hn
            rw [hbadid] at hg
            have harith : acc.badId - ((n : ℤ) + 1) = acc.badId - 1 - n := by omega
            push_cast
            rw [harith, hg]
            rfl
      · have hbadid : (sortStep acc b).badId = acc.badId - 1 := by rw [hstep]
        intro k hk
        rw [List.foldl_cons]
        have hout := ihout k (by
          rw [hbadid]
          simp only [List.length_cons] at hk
          rcases hk with h | h
          · left; omega
          · right; push_cast at h ⊢; omega)
        rw [hout, hstep]
        simp only
        have : ¬ k = acc.badId := by
          simp only [List.length_cons] at hk
          rcases hk with h | h
          · omega
          · push_cast at h; omega
        simp [this]

end SortStates

namespace SortStates

/-- The conflict warning emitted for the duplicated id `v` when the
synthetic-id counter stands at `-1`: it references the later record's
file first and the earlier record's file second. -/
def conflictWarningAtMinusOne (laterFile earlierFile : String) (v : Int) : Warning :=
  { source := [⟨"state", -1, none⟩]
    relatedFiles := [laterFile, earlierFile]
    text := .stateIdConflict v }

theorem nodup_mid {A B : List Int} {v : Int} (h : (A ++ v :: B).Nodup) :
    v ∉ A ∧ v ∉ B ∧ A.Nodup ∧ B.Nodup ∧ ∀ x ∈ A, x ∉ v :: B := by
  rw [List.nodup_append] at h
  obtain ⟨hA, hvB, hdisj⟩ := h
  rw [List.nodup_cons] at hvB
  exact ⟨fun hvA => hdisj hvA (by simp), hvB.1, hA, hvB.2,
    fun x hx hxv => hdisj hx hxv⟩

end SortStates

namespace SortStates

/-- C1: when exactly two records claim the same positive id `v` (all other
ids being well-formed and pairwise distinct), reconciliation keeps the
earlier record at `v` in the dense array, reassigns the later record the
synthetic id `-1`, and the warning list contains exactly one conflict
warning, whose related-files list names the later record's file and the
earlier record's file. -/
theorem sortStates_conflict (L1 L2 L3 : List RawState) (r1 r2 : RawState) (v : Int)
    (hv1 : r1.id = v) (hv2 : r2.id = v) (hpos : 0 < v)
    (hnd : ((L1 ++ r1 :: (L2 ++ L3)).map RawState.id).Nodup)
    (hne1 : ∀ p ∈ L1 ++ r1 :: (L2 ++ L3), p.id ≠ -1)
    (hbound : ∀ p ∈ L1 ++ r1 :: (L2 ++ L3), p.id ≤ 10000) :
    ∃ r, sortStates (L1 ++ r1 :: (L2 ++ r2 :: L3)) = .ok r ∧
      r.sortedStates v = some r1 ∧
      r.sortedStates (-1) = some { r2 with id := -1 } ∧
      r.badStateId = -2 ∧
      r.warnings.filter isConflictW = [conflictWarningAtMinusOne r2.file r1.file v] := by
  classical
  set G : List RawState := L1 ++ r1 :: L2 with hG
  have hsplit : L1 ++ r1 :: (L2 ++ r2 :: L3) = G ++ r2 :: L3 := by
    simp [hG]
  have hsplit' : L1 ++ r1 :: (L2 ++ L3) = G ++ L3 := by
    simp [hG]
  -- id bookkeeping from the nodup hypothesis
  have hndG : ((G ++ L3).map RawState.id).Nodup := by rw [← hsplit']; exact hnd
  rw [List.map_append, List.nodup_append] at hndG
  obtain ⟨hndG1, hndL3, hdisjG⟩ := hndG
  have hv_notin : v ∉ L1.map RawState.id ∧ v ∉ L2.map RawState.id := by
    have h1 : ((L1.map RawState.id) ++ v :: ((L2 ++ L3).map RawState.id)).Nodup := by
      have := hnd
      rw [List.map_append, List.map_cons, hv1] at this
      simpa using this
    obtain ⟨hA, hB, -, -, -⟩ := nodup_mid h1
    rw [List.map_append] at hB
    exact ⟨hA, fun hmem => hB (List.mem_append.mpr (Or.inl hmem))⟩
  -- bound on the maximum id
  have hmax : maxStateId (G ++ r2 :: L3) ≤ 10000 := by
    apply maxStateId_le (by norm_num)
    intro p hp
    rcases List.mem_append.mp hp with h | h
    · exact hbound p (by rw [hsplit']; exact List.mem_append.mpr (Or.inl h))
    · rcases List.mem_cons.mp h with h | h
      · subst h
        rw [hv2, ← hv1]
        exact hbound r1 (by simp [hG])
      · exact hbound p (by rw [hsplit']; exact List.mem_append.mpr (Or.inr h))
  -- fold over the prefix G: plain insertion
  have hplainG := foldl_sortStep_plain G ⟨fun _ => none, -1, []⟩
    (by
      have : (G.map RawState.id).Nodup := hndG1
      exact this)
    (by
      intro p hp
      exact ⟨hne1 p (by rw [hsplit']; exact List.mem_append.mpr (Or.inl hp)), rfl⟩)
  set accG := G.foldl sortStep ⟨fun _ => none, -1, []⟩ with haccG
  obtain ⟨hGb, hGw, hGr⟩ := hplainG
  -- the record r1 is found at v in the prefix result
  have hfindG : G.find? (fun p => p.id == v) = some r1 := by
    rw [hG, List.find?_append]
    have hL1none : L1.find? (fun p => p.id == v) = none := by
      rw [List.find?_eq_none]
      intro p hp
      simp only [beq_iff_eq]
      intro hpv
      exact hv_notin.1 (hpv ▸ List.mem_map_of_mem RawState.id hp)
    rw [hL1none]
    simp only [Option.none_or]
    rw [List.find?_cons]
    simp [hv1]
  have haccGv : accG.res v = some r1 := by
    rw [hGr v, hfindG]
  -- the conflicting step on r2
  have hr2ne : ¬ r2.id = -1 := by rw [hv2]; omega
  have hstep2 : sortStep accG r2 =
      { res := fun k => if k = -1 then some { r2 with id := -1 } else accG.res k
        badId := -2
        ws := [conflictWarningAtMinusOne r2.file r1.file v] } := by
    unfold sortStep
    have hv_ne : ¬ v = -1 := by omega
    simp only [hv2, hv_ne, if_false, ite_false, haccGv, hGb, hGw]
    norm_num [conflictWarningAtMinusOne, hv1]
  -- fold over the suffix L3: plain insertion again
  have hplainL3 := foldl_sortStep_plain L3 (sortStep accG r2)
    (hndL3)
    (by
      intro p hp
      have hpn1 : p.id ≠ -1 := hne1 p (by rw [hsplit']; exact List.mem_append.mpr (Or.inr hp))
      refine ⟨hpn1, ?_⟩
      rw [hstep2]
      simp only [hpn1, if_neg, if_false]
      rw [hGr p.id]
      have : G.find? (fun q => q.id == p.id) = none := by
        rw [List.find?_eq_none]
        intro q hq
        simp only [beq_iff_eq]
        intro hqp
        exact hdisjG (hqp ▸ List.mem_map_of_mem RawState.id hq) (List.mem_map_of_mem RawState.id hp)
      rw [this])
  obtain ⟨hL3b, hL3w, hL3r⟩ := hplainL3
  -- assemble
  have hfold : (G ++ r2 :: L3).foldl sortStep ⟨fun _ => none, -1, []⟩ =
      L3.foldl sortStep (sortStep accG r2) := by
    rw [List.foldl_append, List.foldl_cons, haccG]
  unfold sortStates
  rw [hsplit]
  rw [if_neg (by omega)]
  refine ⟨_, rfl, ?_, ?_, ?_, ?_⟩
  · -- slot v still holds r1
    dsimp only
    rw [hfold, hL3r v]
    have : L3.find? (fun p => p.id == v) = none := by
      rw [List.find?_eq_none]
      intro p hp
      simp only [beq_iff_eq]
      intro hpv
      exact hdisjG (by
        rw [hG, List.map_append, List.map_cons, hv1]
        exact List.mem_append.mpr (Or.inr (by simp))) (hpv ▸ List.mem_map_of_mem RawState.id hp)
    rw [this, hstep2]
    simp only
    rw [if_neg (by omega)]
    exact haccGv
  · -- slot -1 holds the reassigned r2
    dsimp only
    rw [hfold, hL3r (-1)]
    have : L3.find? (fun p => p.id == (-1 : Int)) = none := by
      rw [List.find?_eq_none]
      intro p hp
      simp only [beq_iff_eq]
      exact hne1 p (by rw [hsplit']; exact List.mem_append.mpr (Or.inr hp))
    rw [this, hstep2]
    simp
  · -- final counter
    dsimp only
    rw [hfold, hL3b, hstep2]
  · -- exactly one conflict warning
    dsimp only
    have hgap : (gapScan (L3.foldl sortStep (sortStep accG r2)).res
        (maxStateId (G ++ r2 :: L3))).filter isConflictW = [] := by
      rw [List.filter_eq_nil_iff]
      intro w hw
      rw [gapGo_isConflictW _ _ _ w hw]
      simp
    rw [hfold, List.filter_append, hL3w, hgap, hstep2]
    simp [conflictWarningAtMinusOne, isConflictW]

end SortStates

namespace SortStates

/-- C9 counterexample: a raw record carrying the explicit negative id
`-5` is NOT reassigned a fresh synthetic id decrementing from `-1`: it
is stored at slot `-5` with its id unchanged, slot `-1` stays empty and
the synthetic-id counter is untouched (`badStateId` remains `-1`, so
`badStatesCount = badStateId + 1 = 0` does not count the record). -/
theorem sortStates_keeps_explicit_negative_id :
    ∃ r, sortStates [⟨-5, "f", []⟩] = .ok r ∧
      r.sortedStates (-5) = some ⟨-5, "f", []⟩ ∧
      r.sortedStates (-1) = none ∧
      r.badStateId = -1 ∧
      r.warnings = [] := by
  refine ⟨_, rfl, ?_, ?_, ?_, ?_⟩ <;> rfl

end SortStates

namespace SortStates

/-- C9 (amended): only the sentinel id `-1` — the value `loadState`
substitutes when a record's id field is missing or zero — triggers
synthetic-id assignment.  Part (a): in a list whose records all carry
the sentinel `-1`, the `j`-th record receives the synthetic id
`-1 - j` (decrementing from `-1`), is stored at that slot, and the final
counter is `-1 - n`.  Part (b): a record with any other non-positive id
is stored at its own id unchanged and the counter is untouched. -/
theorem sortStates_bad_ids :
    (∀ (B : List RawState), (∀ p ∈ B, p.id = -1) →
      ∃ r, sortStates B = .ok r ∧
        r.badStateId = -1 - B.length ∧
        r.warnings = [] ∧
        ∀ j (h : j < B.length),
          r.sortedStates (-1 - j) = some { B.get ⟨j, h⟩ with id := -1 - j }) ∧
    (∀ c : RawState, c.id < 0 → c.id ≠ -1 →
      ∃ r, sortStates [c] = .ok r ∧
        r.sortedStates c.id = some c ∧
        r.badStateId = -1 ∧
        r.warnings = []) := by
  constructor
  · intro B hbad
    have hmax : maxStateId B = 0 := by
      have h1 : maxStateId B ≤ 0 := maxStateId_le le_rfl (fun p hp => by rw [hbad p hp]; omega)
      have h2 : 0 ≤ maxStateId B := maxStateId_nonneg B
      omega
    obtain ⟨hb, hw, hget, -⟩ := foldl_sortStep_bad B ⟨fun _ => none, -1, []⟩ hbad
      (fun k _ => rfl)
    unfold sortStates
    rw [hmax]
    rw [if_neg (by omega)]
    refine ⟨_, rfl, ?_, ?_, ?_⟩
    · dsimp only
      rw [hb]
    · dsimp only
      rw [hw]
      simp [gapScan, gapGo]
    · intro j h
      dsimp only
      have := hget j h
      simp only at this
      exact this
  · intro c hneg hne
    have hmax : maxStateId [c] = 0 := by
      unfold maxStateId
      simp only [List.foldl_cons, List.foldl_nil]
      rw [if_neg (by omega)]
    unfold sortStates
    rw [hmax]
    rw [if_neg (by omega)]
    have hstep : sortStep ⟨fun _ => none, -1, []⟩ c =
        { res := fun k => if k = c.id then some c else none
          badId := -1
          ws := [] } := by
      unfold sortStep
      simp only [hne, if_neg, if_false]
    refine ⟨_, rfl, ?_, ?_, ?_⟩
    · dsimp only
      rw [List.foldl_cons, List.foldl_nil, hstep]
      simp
    · dsimp only
      rw [List.foldl_cons, List.foldl_nil, hstep]
    · dsimp only
      rw [List.foldl_cons, List.foldl_nil, hstep]
      simp [gapScan, gapGo]

end SortStates

namespace SortStates

/-- Invariant carried by the gap scan: `pending = some s` means the ids
`s .. i-1` are all missing, the run started at `s ≥ 1` left-maximally;
`pending = none` means the scan is not inside a missing run. -/
def pendInv (res : Int → Option RawState) (i : Int) : Option Int → Prop
  | some s => 1 ≤ s ∧ s ≤ i - 1 ∧ (∀ j ∈ Finset.Icc s (i - 1), res j = none) ∧
      (s = 1 ∨ (res (s - 1)).isSome = true)
  | none => i = 1 ∨ (res (i - 1)).isSome = true

/-- The gap warning for the run `a..b` is emitted by the remaining scan
(positions `i..M`, current pending run `pending`) exactly under this
condition. -/
def emitCond (res : Int → Option RawState) (M i : Int) (pending : Option Int)
    (a b : Int) : Prop :=
  1 ≤ a ∧ a ≤ b ∧ i ≤ b + 1 ∧ b + 1 ≤ M ∧ (res (b + 1)).isSome = true ∧
  (∀ j ∈ Finset.Icc a b, i ≤ j → res j = none) ∧
  (if a < i then pending = some a else (a = 1 ∨ (res (a - 1)).isSome = true))

instance emitCond.instDecidable (res : Int → Option RawState) (M i : Int)
    (pending : Option Int) (a b : Int) : Decidable (emitCond res M i pending a b) := by
  unfold emitCond
  infer_instance

theorem gapWarning_eq_iff {i s e i' s' e' : Int} :
    gapWarning i s e = gapWarning i' s' e' ↔ i = i' ∧ s = s' ∧ e = e' := by
  simp [gapWarning, WarningSource.mk.injEq, and_assoc]

/-- Counting lemma for the gap scan: the warning for the run `a..b`
appears in the scan output exactly once if `emitCond` holds and never
otherwise. -/
theorem gapGo_count (res : Int → Option RawState) (M : Int) :
    ∀ (fuel : Nat) (i : Int) (pending : Option Int),
      i + (fuel : Int) = M + 1 →
      1 ≤ i →
      pendInv res i pending →
      ∀ a b, (gapGo res fuel i pending).count (gapWarning (b + 1) a b) =
        if emitCond res M i pending a b then 1 else 0 := by
  intro fuel
  induction fuel with
  | zero =>
      intro i pending hfuel h1 hinv a b
      simp only [gapGo, List.count_nil]
      rw [if_neg]
      rintro ⟨-, -, hib, hbM, -, -, -⟩
      push_cast at hfuel
      omega
  | succ n ih =>
      intro i pending hfuel h1 hinv a b
      have hfuel' : (i + 1) + (n : Int) = M + 1 := by push_cast at hfuel ⊢; omega
      have hiM : i ≤ M := by push_cast at hfuel; omega
      unfold gapGo
      by_cases hres : (res i).isSome = true
      · rw [if_pos hres]
        cases pending with
        | some s =>
            obtain ⟨hs1, hsi, hmiss, hstart⟩ := hinv
            rw [List.count_cons]
            rw [ih (i + 1) none hfuel' (by omega) (Or.inr (by simpa using hres)) a b]
            by_cases hmatch : i = b + 1 ∧ s = a
            · obtain ⟨hib, hsa⟩ := hmatch
              have heq : (gapWarning i s (i - 1) == gapWarning (b + 1) a b) = true := by
                rw [beq_iff_eq, gapWarning_eq_iff]
                omega
              rw [heq]
              have hnot1 : ¬ emitCond res M (i + 1) none a b := by
                rintro ⟨-, hab, hib', -, -, -, -⟩
                omega
              have hyes : emitCond res M i (some s) a b := by
                refine ⟨by omega, by omega, by omega, by omega, ?_, ?_, ?_⟩
                · have hbi : b + 1 = i := by omega
                  rw [hbi]
                  exact hres
                · intro j hj hij
                  rw [Finset.mem_Icc] at hj
                  exact (False.elim (by omega))
                · rw [if_pos (by omega), hsa]
              rw [if_neg hnot1, if_pos hyes]
              simp
            · have hneq : (gapWarning i s (i - 1) == gapWarning (b + 1) a b) = false := by
                rw [beq_eq_false_iff_ne]
                intro h
                rw [gapWarning_eq_iff] at h
                exact hmatch ⟨h.1, h.2.1⟩
              rw [hneq]
              have hiff : emitCond res M i (some s) a b ↔ emitCond res M (i + 1) none a b := by
                constructor
                · rintro ⟨h1a, hab, hib, hbM, hrb, hm, hst⟩
                  by_cases hai : a < i
                  · exfalso
                    rw [if_pos hai] at hst
                    have hsa : s = a := by
                      simp only [Option.some.injEq] at hst
                      omega
                    by_cases hbi : i ≤ b
                    · have := hm i (Finset.mem_Icc.mpr (by omega)) le_rfl
                      rw [this] at hres
                      simp at hres
                    · exact hmatch ⟨by omega, hsa⟩
                  · have hane : a ≠ i := by
                      intro h
                      have := hm a (Finset.mem_Icc.mpr (by omega)) (by omega)
                      rw [h] at this
                      rw [this] at hres
                      simp at hres
                    refine ⟨h1a, hab, by omega, hbM, hrb, ?_, ?_⟩
                    · intro j hj hij
                      exact hm j hj (by rw [Finset.mem_Icc] at hj; omega)
                    · rw [if_neg (by omega)]
                      rw [if_neg hai] at hst
                      exact hst
                · rintro ⟨h1a, hab, hib, hbM, hrb, hm, hst⟩
                  by_cases hai : a < i + 1
                  · exfalso
                    rw [if_pos hai] at hst
                    exact Option.noConfusion hst
                  · refine ⟨h1a, hab, by omega, hbM, hrb, ?_, ?_⟩
                    · intro j hj hij
                      exact hm j hj (by rw [Finset.mem_Icc] at hj; omega)
                    · rw [if_neg (by omega)]
                      rw [if_neg hai] at hst
                      exact hst
              by_cases hc : emitCond res M i (some s) a b
              · rw [if_pos hc, if_pos (hiff.mp hc)]
                simp
              · rw [if_neg hc, if_neg (fun h => hc (hiff.mpr h))]
                simp
        | none =>
            rw [ih (i + 1) none hfuel' (by omega) (Or.inr (by simpa using hres)) a b]
            have hiff : emitCond res M i none a b ↔ emitCond res M (i + 1) none a b := by
              constructor
              · rintro ⟨h1a, hab, hib, hbM, hrb, hm, hst⟩
                by_cases hai : a < i
                · exfalso
                  rw [if_pos hai] at hst
                  exact Option.noConfusion hst
                · have hane : a ≠ i := by
                    intro h
                    have := hm a (Finset.mem_Icc.mpr (by omega)) (by omega)
                    rw [h] at this
                    rw [this] at hres
                    simp at hres
                  refine ⟨h1a, hab, by omega, hbM, hrb, ?_, ?_⟩
                  · intro j hj hij
                    exact hm j hj (by rw [Finset.mem_Icc] at hj; omega)
                  · rw [if_neg (by omega)]
                    rw [if_neg hai] at hst
                    exact hst
              · rintro ⟨h1a, hab, hib, hbM, hrb, hm, hst⟩
                by_cases hai : a < i + 1
                · exfalso
                  rw [if_pos hai] at hst
                  exact Option.noConfusion hst
                · refine ⟨h1a, hab, by omega, hbM, hrb, ?_, ?_⟩
                  · intro j hj hij
                    exact hm j hj (by rw [Finset.mem_Icc] at hj; omega)
                  · rw [if_neg (by omega)]
                    rw [if_neg hai] at hst
                    exact hst
            by_cases hc : emitCond res M i none a b
            · rw [if_pos hc, if_pos (hiff.mp hc)]
            · rw [if_neg hc, if_neg (fun h => hc (hiff.mpr h))]
      · rw [if_neg hres]
        have hresn : res i = none := by
          cases h : res i with
          | none => rfl
          | some q => rw [h] at hres; simp at hres
        cases pending with
        | some s =>
            obtain ⟨hs1, hsi, hmiss, hstart⟩ := hinv
            have hinv' : pendInv res (i + 1) (some s) := by
              refine ⟨hs1, by omega, ?_, hstart⟩
              intro j hj
              rw [Finset.mem_Icc] at hj
              by_cases hji : j = i
              · rw [hji, hresn]
              · exact hmiss j (Finset.mem_Icc.mpr (by omega))
            rw [ih (i + 1) (some s) hfuel' (by omega) hinv' a b]
            have hiff : emitCond res M i (some s) a b ↔ emitCond res M (i + 1) (some s) a b := by
              constructor
              · rintro ⟨h1a, hab, hib, hbM, hrb, hm, hst⟩
                have hbne : i ≠ b + 1 := by
                  intro h
                  rw [← h, hresn] at hrb
                  simp at hrb
                refine ⟨h1a, hab, by omega, hbM, hrb, ?_, ?_⟩
                · intro j hj hij
                  exact hm j hj (by rw [Finset.mem_Icc] at hj; omega)
                · by_cases hai : a < i
                  · rw [if_pos hai] at hst
                    rw [if_pos (by omega)]
                    exact hst
                  · have hane : a ≠ i := by
                      intro h
                      rw [if_neg hai] at hst
                      rcases hst with h1 | h2
                      · omega
                      · have := hmiss (a - 1) (Finset.mem_Icc.mpr (by omega))
                        rw [this] at h2
                        simp at h2
                    rw [if_neg (by omega)]
                    rw [if_neg hai] at hst
                    exact hst
              · rintro ⟨h1a, hab, hib, hbM, hrb, hm, hst⟩
                refine ⟨h1a, hab, by omega, hbM, hrb, ?_, ?_⟩
                · intro j hj hij
                  by_cases hji : j = i
                  · rw [hji, hresn]
                  · exact hm j hj (by rw [Finset.mem_Icc] at hj; omega)
                · by_cases hai : a < i + 1
                  · rw [if_pos hai] at hst
                    have hsa : a = s := by
                      simp only [Option.some.injEq] at hst
                      omega
                    rw [if_pos (by omega), hst]
                  · rw [if_neg (by omega)]
                    rw [if_neg hai] at hst
                    exact hst
            by_cases hc : emitCond res M i (some s) a b
            · rw [if_pos hc, if_pos (hiff.mp hc)]
            · rw [if_neg hc, if_neg (fun h => hc (hiff.mpr h))]
        | none =>
            have hinv' : pendInv res (i + 1) (some i) := by
              refine ⟨h1, by omega, ?_, ?_⟩
              · intro j hj
                rw [Finset.mem_Icc] at hj
                have hji : j = i := by omega
                rw [hji, hresn]
              · exact hinv
            rw [ih (i + 1) (some i) hfuel' (by omega) hinv' a b]
            have hiff : emitCond res M i none a b ↔ emitCond res M (i + 1) (some i) a b := by
              constructor
              · rintro ⟨h1a, hab, hib, hbM, hrb, hm, hst⟩
                have hbne : i ≠ b + 1 := by
                  intro h
                  rw [← h, hresn] at hrb
                  simp at hrb
                have hai : ¬ a < i := by
                  intro h
                  rw [if_pos h] at hst
                  exact Option.noConfusion hst
                refine ⟨h1a, hab, by omega, hbM, hrb, ?_, ?_⟩
                · intro j hj hij
                  exact hm j hj (by rw [Finset.mem_Icc] at hj; omega)
                · by_cases hai' : a = i
                  · rw [if_pos (by omega), hai']
                  · rw [if_neg (by omega)]
                    rw [if_neg hai] at hst
                    exact hst
              · rintro ⟨h1a, hab, hib, hbM, hrb, hm, hst⟩
                by_cases hai : a < i + 1
                · rw [if_pos hai] at hst
                  have hsa : a = i := by
                    simp only [Option.some.injEq] at hst
                    omega
                  refine ⟨h1a, hab, by omega, hbM, hrb, ?_, ?_⟩
                  · intro j hj hij
                    by_cases hji : j = i
                    · rw [hji, hresn]
                    · exact hm j hj (by rw [Finset.mem_Icc] at hj; omega)
                  · rw [if_neg (by omega), hsa]
                    exact hinv
                · refine ⟨h1a, hab, by omega, hbM, hrb, ?_, ?_⟩
                  · intro j hj hij
                    by_cases hji : j = i
                    · rw [hji, hresn]
                    · exact hm j hj (by rw [Finset.mem_Icc] at hj; omega)
                  · rw [if_neg (by omega)]
                    rw [if_neg hai] at hst
                    exact hst
            by_cases hc : emitCond res M i none a b
            · rw [if_pos hc, if_pos (hiff.mp hc)]
            · rw [if_neg hc, if_neg (fun h => hc (hiff.mpr h))]

end SortStates

namespace SortStates

theorem foldl_sortStep_preserves_some (states : List RawState) :
    ∀ (acc : SortAcc) (k : Int), (acc.res k).isSome = true →
      ((states.foldl sortStep acc).res k).isSome = true := by
  induction states with
  | nil => intro acc k h; simpa using h
  | cons p T ih =>
      intro acc k h
      rw [List.foldl_cons]
      apply ih
      unfold sortStep
      cases hm : acc.res (if p.id = -1 then { p with id := acc.badId } else p).id with
      | some q =>
          simp only [hm]
          by_cases hk : k = (if p.id = -1 then acc.badId - 1 else acc.badId)
          · simp [hk]
          · simp only [hk, if_neg, if_false]
            simpa using h
      | none =>
          simp only [hm]
          by_cases hk : k = (if p.id = -1 then { p with id := acc.badId } else p).id
          · simp [hk]
          · simp only [hk, if_neg, if_false]
            simpa using h

theorem foldl_sortStep_sets (states : List RawState) :
    ∀ (acc : SortAcc) (k : Int), 0 ≤ k → acc.badId ≤ -1 →
      (∃ p ∈ states, p.id = k) →
      ((states.foldl sortStep acc).res k).isSome = true := by
  induction states with
  | nil => intro acc k _ _ h; simp at h
  | cons p T ih =>
      intro acc k hk hbad hex
      rw [List.foldl_cons]
      have hbad' : (sortStep acc p).badId ≤ -1 := by
        unfold sortStep
        cases hm : acc.res (if p.id = -1 then { p with id := acc.badId } else p).id with
        | some q => simp only [hm]; split <;> omega
        | none => simp only [hm]; split <;> omega
      rcases hex with ⟨q, hq, hqk⟩
      rcases List.mem_cons.mp hq with hq1 | hq1
      · subst hq1
        apply foldl_sortStep_preserves_some
        unfold sortStep
        have hne : ¬ q.id = -1 := by omega
        simp only [hne, if_neg, if_false]
        cases hm : acc.res q.id with
        | some x =>
            simp only [hm]
            rw [if_neg (show ¬ k = acc.badId by omega)]
            rw [hqk] at hm
            simp [hm]
        | none =>
            simp only [hm]
            rw [if_pos hqk.symm]
            simp
      · exact ih (sortStep acc p) k hk hbad' ⟨q, hq1, hqk⟩

theorem foldl_max_result (states : List RawState) :
    ∀ a : Int,
      states.foldl (fun p c => if c.id > p then c.id else p) a = a ∨
      ∃ p ∈ states, p.id = states.foldl (fun p c => if c.id > p then c.id else p) a := by
  induction states with
  | nil => intro a; left; rfl
  | cons h T ih =>
      intro a
      rw [List.foldl_cons]
      rcases ih (if h.id > a then h.id else a) with hcase | hcase
      · rw [hcase]
        by_cases hh : h.id > a
        · right
          exact ⟨h, by simp, by rw [if_pos hh]⟩
        · left
          rw [if_neg hh]
      · right
        rcases hcase with ⟨p, hp, hpk⟩
        exact ⟨p, by simp [hp], hpk⟩

/-- When the maximum observed id is positive, its slot in the final
dense array is always occupied (so no missing run ever reaches the top
id). -/
theorem sortStates_res_max (states : List RawState) (r : SortStatesResult)
    (hok : sortStates states = .ok r) (hpos : 0 < maxStateId states) :
    (r.sortedStates (maxStateId states)).isSome = true := by
  unfold sortStates at hok
  by_cases hmax : maxStateId states > 10000
  · rw [if_pos hmax] at hok
    exact Except.noConfusion hok
  · rw [if_neg hmax] at hok
    have hr := Except.ok.inj hok
    have hex : ∃ p ∈ states, p.id = maxStateId states := by
      rcases foldl_max_result states 0 with h | h
      · unfold maxStateId at hpos
        omega
      · exact h
    have := foldl_sortStep_sets states ⟨fun _ => none, -1, []⟩
      (maxStateId states) (by omega) (by norm_num) hex
    rw [← hr]
    exact this

theorem sortStep_ws_mem (acc : SortAcc) (p : RawState) (w : Warning)
    (h : w ∈ (sortStep acc p).ws) : w ∈ acc.ws ∨ isConflictW w = true := by
  unfold sortStep at h
  dsimp only at h
  split at h
  · simp only [List.mem_append, List.mem_singleton] at h
    rcases h with h | h
    · left; exact h
    · right; rw [h]; rfl
  · left; exact h

theorem foldl_sortStep_ws_conflict (states : List RawState) :
    ∀ (acc : SortAcc) (w : Warning), w ∈ (states.foldl sortStep acc).ws →
      w ∈ acc.ws ∨ isConflictW w = true := by
  induction states with
  | nil => intro acc w h; left; simpa using h
  | cons p T ih =>
      intro acc w h
      rw [List.foldl_cons] at h
      rcases ih (sortStep acc p) w h with h1 | h1
      · exact sortStep_ws_mem acc p w h1
      · right; exact h1

end SortStates

namespace SortStates

/-- `[a, b]` is a maximal run of consecutive missing ids within
`[1, maxObservedId]` of the reconciled dense array. -/
def maximalGapRun (states : List RawState) (r : SortStatesResult) (a b : Int) : Prop :=
  1 ≤ a ∧ a ≤ b ∧ b ≤ maxStateId states ∧
  (∀ j ∈ Finset.Icc a b, r.sortedStates j = none) ∧
  (a = 1 ∨ (r.sortedStates (a - 1)).isSome = true) ∧
  (b = maxStateId states ∨ (r.sortedStates (b + 1)).isSome = true)

instance maximalGapRun.instDecidable (states : List RawState) (r : SortStatesResult)
    (a b : Int) : Decidable (maximalGapRun states r a b) := by
  unfold maximalGapRun
  infer_instance

/-- C4: the warnings of a successful reconciliation contain the ranged
gap warning for `a..b` exactly once when `[a, b]` is a maximal missing
run inside `[1, maxObservedId]`, and never otherwise — consecutive
missing ids are coalesced into a single ranged warning. -/
theorem sortStates_gap_runs (states : List RawState) (r : SortStatesResult)
    (hok : sortStates states = .ok r) (a b : Int) :
    r.warnings.count (gapWarning (b + 1) a b) =
      if maximalGapRun states r a b then 1 else 0 := by
  have hok0 := hok
  unfold sortStates at hok
  by_cases hmax : maxStateId states > 10000
  · rw [if_pos hmax] at hok
    exact Except.noConfusion hok
  · rw [if_neg hmax] at hok
    have hr := Except.ok.inj hok
    set M := maxStateId states with hM
    set A := states.foldl sortStep ⟨fun _ => none, -1, []⟩ with hA
    have hMnn : 0 ≤ M := maxStateId_nonneg states
    have hws : r.warnings = A.ws ++ gapScan A.res M := by rw [← hr]
    have hres : r.sortedStates = A.res := by rw [← hr]
    rw [hws, List.count_append]
    have hcount0 : A.ws.count (gapWarning (b + 1) a b) = 0 := by
      rw [List.count_eq_zero]
      intro hmem
      rcases foldl_sortStep_ws_conflict states ⟨fun _ => none, -1, []⟩ _ hmem with h | h
      · simp at h
      · rw [show gapWarning (b + 1) a b =
          ⟨[⟨"state", b + 1, none⟩], [], .stateNotExist a b⟩ from rfl] at h
        simp [isConflictW] at h
    rw [hcount0]
    have hcnt := gapGo_count A.res M M.toNat 1 none
      (by omega) le_rfl (Or.inl rfl) a b
    rw [show gapScan A.res M = gapGo A.res M.toNat 1 none from rfl, hcnt]
    have hiff : emitCond A.res M 1 none a b ↔ maximalGapRun states r a b := by
      constructor
      · rintro ⟨h1a, hab, hib, hbM, hrb, hm, hst⟩
        rw [if_neg (by omega)] at hst
        refine ⟨h1a, hab, by omega, ?_, by rw [hres]; exact hst,
          Or.inr (by rw [hres]; exact hrb)⟩
        intro j hj
        rw [hres]
        have hj' := hj
        rw [Finset.mem_Icc] at hj'
        exact hm j hj (by omega)
      · rintro ⟨h1a, hab, hbM, hm, hst, hright⟩
        have hbne : b ≠ M := by
          intro hbm
          have hMp : 0 < M := by omega
          have := sortStates_res_max states r hok0 hMp
          rw [hres] at this
          have hnone := hm b (Finset.mem_Icc.mpr (by omega))
          rw [hres, hbm] at hnone
          rw [← hM] at this
          rw [hnone] at this
          simp at this
        have hrb : (A.res (b + 1)).isSome = true := by
          rcases hright with h | h
          · exact absurd h hbne
          · rw [hres] at h; exact h
        refine ⟨h1a, hab, by omega, by omega, hrb, ?_, ?_⟩
        · intro j hj hij
          have := hm j hj
          rw [hres] at this
          exact this
        · rw [if_neg (by omega)]
          rw [hres] at hst
          exact hst
    by_cases hc : maximalGapRun states r a b
    · rw [if_pos hc, if_pos (hiff.mpr hc)]
    · rw [if_neg hc, if_neg (fun h => hc (hiff.mp h))]

end SortStates

/-! ## Geometry and state validation -/

/-- Modelled from the spec: the plain (non-wrapping) union of two
rectangles, the building block of the cylindrical merge described in
spec §4.3 (`mergeBoundingBox` lives in `loader/common.ts`, which is not
among the provided sources). -/
def unionZone (a b : Zone) : Zone :=
  { x := min a.x b.x
    y := min a.y b.y
    w := max (a.x + a.w) (b.x + b.w) - min a.x b.x
    h := max (a.y + a.h) (b.y + b.h) - min a.y b.y }

/-- Modelled from the spec: `mergeBoundingBox` of `loader/common.ts` is
not among the provided sources.  Per spec §3/§4.3 it merges two bounding
boxes on a cylindrical map of width `width`, choosing the
wraparound-adjusted union with the shorter horizontal span: the plain
union is compared against the union obtained by shifting the box with
the smaller left edge one full map width to the right, and the narrower
result wins. -/
def mergeBoundingBox (a b : Zone) (width : Int) : Zone :=
  let naive := unionZone a b
  let shifted := if a.x ≤ b.x then unionZone { a with x := a.x + width } b
                 else unionZone a { b with x := b.x + width }
  if shifted.w < naive.w then shifted else naive

/-- The derived region value `{boundingBox, centerOfMass, mass}`
(the `Region` type of `definitions.ts`). -/
structure RegionData where
  boundingBox : Zone
  centerOfMass : Point
  mass : Int
  deriving Repr, DecidableEq

/-- Modelled from the spec: `mergeRegions` of `loader/common.ts` is not
among the provided sources.  Per spec §4.3 it reduces a non-empty member
list with the cylindrical bounding-box merge, sums the member masses,
and takes the mass-weighted centroid of the member centers (the spec's
wraparound refinement of the centroid is not observed by any property
proved below; integer division stands in for number division). -/
def mergeRegions (members : List Province) (width : Int) : RegionData :=
  match members with
  | [] => ⟨⟨0, 0, 0, 0⟩, ⟨0, 0⟩, 0⟩
  | m :: rest =>
      let mass := (m :: rest).foldl (fun s q => s + q.mass) 0
      { boundingBox := rest.foldl (fun z q => mergeBoundingBox z q.boundingBox width) m.boundingBox
        centerOfMass :=
          { x := ((m :: rest).foldl (fun s q => s + q.mass * q.centerOfMass.x) 0) / mass
            y := ((m :: rest).foldl (fun s q => s + q.mass * q.centerOfMass.y) 0) / mass }
        mass := mass }

/-- A state record with its region attached (the `State` type of
`definitions.ts`, restricted to the fields the embedded code reads). -/
structure StateR where
  id : Int
  file : String
  provinces : List Int
  boundingBox : Zone
  centerOfMass : Point
  mass : Int
  deriving Repr, DecidableEq

/-- The dangling-reference warning of the states geometry pass:
"Province {0} used in state {1} doesn't exist." -/
def stateDanglingWarning (st : RawState) (p : Int) : Warning :=
  { source := [⟨"state", st.id, none⟩]
    relatedFiles := [st.file]
    text := .stateProvinceNotExist p st.id }

/-- `calculateBoundingBox` of the newer states loader
(`src/unnamed/part_003` lines 188-225): resolve the declared province
ids against the province table (emitting one dangling-reference warning
per unresolved id, in declaration order); when at least one province
resolves, attach the merged region and emit a too-large warning if the
merged box exceeds half the map width or height (`w > width / 2` over
JavaScript numbers equals `2 * w > width` over integers); otherwise
attach the zero region and, when the record declared at least one
province id, emit a "no valid provinces" warning. -/
def calculateBoundingBox (st : RawState) (provinces : Int → Option Province)
    (width height : Int) : StateR × List Warning :=
  let ws1 := (st.provinces.filter (fun p => (provinces p).isNone)).map
      (stateDanglingWarning st)
  let provincesInState := st.provinces.filterMap provinces
  if provincesInState.length > 0 then
    let rd := mergeRegions provincesInState width
    let st' : StateR :=
      { id := st.id, file := st.file, provinces := st.provinces
        boundingBox := rd.boundingBox, centerOfMass := rd.centerOfMass, mass := rd.mass }
    let ws2 :=
      if 2 * rd.boundingBox.w > width ∨ 2 * rd.boundingBox.h > height then
        [({ source := [⟨"state", st.id, none⟩]
            relatedFiles := [st.file]
            text := .stateTooLarge st.id rd.boundingBox.w rd.boundingBox.h } : Warning)]
      else []
    (st', ws1 ++ ws2)
  else
    let st' : StateR :=
      { id := st.id, file := st.file, provinces := st.provinces
        boundingBox := ⟨0, 0, 0, 0⟩, centerOfMass := ⟨0, 0⟩, mass := 0 }
    let ws2 :=
      if st.provinces.length > 0 then
        [({ source := [⟨"state", st.id, none⟩]
            relatedFiles := [st.file]
            text := .stateNoValidProvinces st.id } : Warning)]
      else []
    (st', ws1 ++ ws2)

/-- A strategic-region record before its region is attached
(`StrategicRegionNoRegion` of `src/unnamed/part_002`, restricted to the
fields the embedded code reads). -/
structure RawStrategicRegion where
  id : Int
  file : String
  provinces : List Int
  deriving Repr, DecidableEq

/-- A strategic region with its region attached. -/
structure StrategicRegionR where
  id : Int
  file : String
  provinces : List Int
  boundingBox : Zone
  centerOfMass : Point
  mass : Int
  deriving Repr, DecidableEq

/-- `calculateBoundingBox` of the strategic-region loader
(`src/unnamed/part_002` lines 176-206).  The warning callback inside the
resolution loop reads `strategicRegion.id`, but `strategicRegion` is a
`let` variable declared only after the loop runs, so JavaScript throws a
ReferenceError (temporal dead zone) as soon as any declared province id
fails to resolve; the embedding returns `Except.error ()` for that
crash.  When every id resolves, the region is attached as in the states
loader (this variant has no too-large warning); with an empty
declaration list the zero region is attached and no warning is
emitted. -/
def srCalculateBoundingBox (sr : RawStrategicRegion)
    (provinces : Int → Option Province) (width : Int) :
    Except Unit (StrategicRegionR × List Warning) := do
  let provincesIn ← sr.provinces.foldlM (fun acc p =>
      match provinces p with
      | none => .error ()
      | some prov => .ok (acc ++ [prov])) ([] : List Province)
  if provincesIn.length > 0 then
    let rd := mergeRegions provincesIn width
    .ok ({ id := sr.id, file := sr.file, provinces := sr.provinces
           boundingBox := rd.boundingBox, centerOfMass := rd.centerOfMass
           mass := rd.mass }, [])
  else
    let ws :=
      if sr.provinces.length > 0 then
        [({ source := [⟨"strategicregion", sr.id, none⟩]
            relatedFiles := [sr.file]
            text := .srNoValidProvinces sr.id } : Warning)]
      else []
    .ok ({ id := sr.id, file := sr.file, provinces := sr.provinces
           boundingBox := ⟨0, 0, 0, 0⟩, centerOfMass := ⟨0, 0⟩
           mass := 0 }, ws)

/-- The sea-province warning:
"Sea province {0} shouldn't belong to a state." -/
def seaWarning (st : StateR) (p : Int) (prov : Province) : Warning :=
  { source := [⟨"state", st.id, none⟩, ⟨"province", p, some prov.color⟩]
    relatedFiles := [st.file]
    text := .stateHasSea p }

/-- One iteration of `state.provinces.forEach(...)` inside
`validateProvinceInState` (`src/unnamed/part_003` lines 236-265, same
logic as `states.ts` lines 256-285): when the province is already in the
reverse map, a missing province returns early (no warning at all),
otherwise a multi-state warning referencing both claimants' files is
pushed; a first claim registers the claimant unconditionally; finally an
existing sea province gets a sea warning.  The
`states[provinceToState[p]]!` non-null assertion is `Except.error` when
the dense array misses the first claimant. -/
def vpisProvince (provinces : Int → Option Province) (states : Int → Option StateR)
    (st : StateR) (acc : (Int → Option Int) × List Warning) (p : Int) :
    Except Unit ((Int → Option Int) × List Warning) :=
  let m := acc.1
  let ws := acc.2
  let province := provinces p
  match m p with
  | some owner =>
      match province with
      | none => .ok (m, ws)
      | some prov =>
          match states owner with
          | none => .error ()
          | some ownerSt =>
              let w : Warning :=
                { source := [⟨"state", st.id, none⟩, ⟨"state", owner, none⟩,
                             ⟨"province", p, some prov.color⟩]
                  relatedFiles := [st.file, ownerSt.file]
                  text := .provinceInMultiStates p owner st.id }
              if prov.type = "sea" then
                .ok (m, ws ++ [w] ++ [seaWarning st p prov])
              else
                .ok (m, ws ++ [w])
  | none =>
      let m' := fun k => if k = p then some st.id else m k
      match province with
      | some prov =>
          if prov.type = "sea" then .ok (m', ws ++ [seaWarning st p prov])
          else .ok (m', ws)
      | none => .ok (m', ws)

/-- The outer loop of `validateProvinceInState`: walk the dense array
from `badStatesCount` up to the array length, skipping empty slots. -/
def vpisGo (provinces : Int → Option Province) (states : Int → Option StateR) :
    Nat → Int → ((Int → Option Int) × List Warning) →
    Except Unit ((Int → Option Int) × List Warning)
  | 0, _, acc => .ok acc
  | fuel + 1, i, acc =>
      match states i with
      | none => vpisGo provinces states fuel (i + 1) acc
      | some st => do
          let acc' ← st.provinces.foldlM (vpisProvince provinces states st) acc
          vpisGo provinces states fuel (i + 1) acc'

/-- `validateProvinceInState` (`src/unnamed/part_003` lines 227-267):
returns the warnings pushed, in push order. -/
def validateProvinceInState (provinces : Int → Option Province)
    (states : Int → Option StateR) (badStatesCount len : Int) :
    Except Unit (List Warning) :=
  (vpisGo provinces states (len - badStatesCount).toNat badStatesCount
    (fun _ => none, [])).map (fun acc => acc.2)

/-- The geometry-filling loop of `StatesLoader.mergeFiles`
(`src/unnamed/part_003` lines 86-91): for each occupied slot from
`badStateId + 1` up to the array length, attach the computed region and
collect the geometry warnings in index order. -/
def fillStatesGo (sorted : Int → Option RawState) (provinces : Int → Option Province)
    (width height : Int) :
    Nat → Int → ((Int → Option StateR) × List Warning) →
    (Int → Option StateR) × List Warning
  | 0, _, acc => acc
  | fuel + 1, i, acc =>
      match sorted i with
      | none => fillStatesGo sorted provinces width height fuel (i + 1) acc
      | some st =>
          let r := calculateBoundingBox st provinces width height
          fillStatesGo sorted provinces width height fuel (i + 1)
            (fun k => if k = i then some r.1 else acc.1 k, acc.2 ++ r.2)

/-- Failure modes of the merged states pipeline: the fatal id-overflow
throw of `sortStates`, or a crash of a non-null assertion. -/
inductive MergeError where
  | overflow (maxId : Int)
  | assertionFailed
  deriving Repr, DecidableEq

/-- Result of the merged states pipeline. -/
structure StatesMergeResult where
  states : Int → Option StateR
  badStatesCount : Int
  warnings : List Warning

/-- The merge step of the states folder loader
(`StatesLoader.mergeFiles`, `src/unnamed/part_003` lines 74-105) with
the file-loader and progress plumbing stripped: reconcile the
concatenated raw records, compute geometry for every occupied slot from
`badStateId + 1` up to the dense-array length `maxStateId + 1`, then run
cross-entity validation over the filled array.  Warnings accumulate in
source push order: reconciliation warnings (conflicts then gaps), then
geometry warnings, then validation warnings. -/
def mergeStateFiles (rawStates : List RawState) (provinces : Int → Option Province)
    (width height : Int) : Except MergeError StatesMergeResult :=
  match SortStates.sortStates rawStates with
  | .error m => .error (.overflow m)
  | .ok s =>
      let len := SortStates.maxStateId rawStates + 1
      let badStatesCount := s.badStateId + 1
      let fill := fillStatesGo s.sortedStates provinces width height
        (len - badStatesCount).toNat badStatesCount (fun _ => none, [])
      match validateProvinceInState provinces fill.1 badStatesCount len with
      | .error _ => .error .assertionFailed
      | .ok ws3 => .ok ⟨fill.1, badStatesCount, s.warnings ++ fill.2 ++ ws3⟩

/-- C6: the cylindrical bounding-box merge never produces a wider box
than the naive min/max union, and on a map of width 100 merging the box
at `x = 95, w = 10` (wrapping past the seam) with the box at
`x = 2, w = 3` yields a box no wider than 12 — not the 90+-wide naive
union. -/
theorem mergeBoundingBox_wraparound :
    (∀ a b width, (mergeBoundingBox a b width).w ≤ (unionZone a b).w) ∧
    (mergeBoundingBox ⟨95, 0, 10, 1⟩ ⟨2, 0, 3, 1⟩ 100).w ≤ 12 ∧
    12 < (unionZone ⟨95, 0, 10, 1⟩ ⟨2, 0, 3, 1⟩).w := by
  refine ⟨?_, by decide, by decide⟩
  intro a b width
  unfold mergeBoundingBox
  dsimp only
  split <;> split <;> omega

/-- The "no valid provinces" warning for a state. -/
def noValidWarning (st : RawState) : Warning :=
  { source := [⟨"state", st.id, none⟩]
    relatedFiles := [st.file]
    text := .stateNoValidProvinces st.id }

/-- C5: when none of a state's declared province references resolves,
its region is the zero box with zero center of mass and zero mass, the
geometry pass emits one dangling-reference warning per declared id
followed by exactly one "no valid provinces" warning when at least one
id was declared (and none otherwise); and the strategic-region variant
of the same function instead crashes with a ReferenceError (reading the
`strategicRegion` binding before its `let` initializer runs) as soon as
a reference fails to resolve. -/
theorem calculateBoundingBox_no_valid_members :
    (∀ (st : RawState) (provinces : Int → Option Province) (width height : Int),
      (∀ p ∈ st.provinces, provinces p = none) →
      (calculateBoundingBox st provinces width height).1.boundingBox = ⟨0, 0, 0, 0⟩ ∧
      (calculateBoundingBox st provinces width height).1.centerOfMass = ⟨0, 0⟩ ∧
      (calculateBoundingBox st provinces width height).1.mass = 0 ∧
      (calculateBoundingBox st provinces width height).2 =
        st.provinces.map (stateDanglingWarning st) ++
          (if st.provinces.length > 0 then [noValidWarning st] else []) ∧
      (calculateBoundingBox st provinces width height).2.count (noValidWarning st) =
        (if st.provinces.length > 0 then 1 else 0)) ∧
    srCalculateBoundingBox ⟨1, "sr.txt", [10]⟩ (fun _ => none) 100 = .error () := by
  constructor
  · intro st provinces width height hnone
    have hfm : st.provinces.filterMap provinces = [] := by
      rw [List.filterMap_eq_nil_iff]
      exact hnone
    have hfl : st.provinces.filter (fun p => (provinces p).isNone) = st.provinces := by
      rw [List.filter_eq_self]
      intro p hp
      rw [hnone p hp]
      rfl
    unfold calculateBoundingBox
    rw [hfm, hfl]
    dsimp only
    rw [if_neg (by simp)]
    dsimp only
    refine ⟨rfl, rfl, rfl, rfl, ?_⟩
    rw [List.count_append, List.count_eq_zero.mpr, Nat.zero_add]
    · by_cases hlen : st.provinces.length > 0
      · rw [if_pos hlen, if_pos hlen]
        simp [List.count_cons, noValidWarning]
      · rw [if_neg hlen, if_neg hlen]
        rfl
    · intro hmem
      rw [List.mem_map] at hmem
      rcases hmem with ⟨p, hp, hpw⟩
      have := congrArg Warning.text hpw
      simp [stateDanglingWarning, noValidWarning] at this
  · rfl

/-- `true` iff a warning is a province-in-multiple-states warning. -/
def isMultiStateW (w : Warning) : Bool :=
  match w.text with
  | .provinceInMultiStates _ _ _ => true
  | _ => false

/-- C7 counterexample: states 1 and 2 both list province 7.  After the
full merge pipeline the *later* state's geometry still uses the shared
province — its bounding box equals province 7's box `{3,3,2,2}`, not the
zero box that "the shared province is used only for the earlier-assigned
state" would require (a state with no remaining valid members gets
`{0,0,0,0}`). -/
theorem mergeStateFiles_shared_province_geometry :
    ∃ r, mergeStateFiles [⟨1, "a.txt", [7]⟩, ⟨2, "b.txt", [7]⟩]
        (fun k => if k = 7 then some ⟨99, "land", [], ⟨3, 3, 2, 2⟩, ⟨4, 4⟩, 1⟩ else none)
        100 100 = .ok r ∧
      (r.states 2).map (fun s => s.boundingBox) = some ⟨3, 3, 2, 2⟩ ∧
      (r.states 2).map (fun s => s.boundingBox) ≠ some ⟨0, 0, 0, 0⟩ := by
  refine ⟨_, rfl, by decide, by decide⟩

/-- C7 (amended): when two states list the same existing non-sea
province, the merge pipeline succeeds — the overlap is reported as a
warning, not a failure; exactly one multi-state warning is emitted and
it names the earlier state (id 1) as the already-registered owner
(first assignment wins in the validator's reverse map) and both states'
files; but the shared province's bounding box enters the geometry of
BOTH states, not only the earlier one.  (The hypotheses keep the
province smaller than half the map so that the independent too-large
warning does not fire.) -/
theorem mergeStateFiles_shared_province (f g : String) (pid : Int) (prov : Province)
    (width height : Int) (hsea : ¬ prov.type = "sea")
    (hw : ¬ 2 * prov.boundingBox.w > width) (hh : ¬ 2 * prov.boundingBox.h > height) :
    (mergeStateFiles [⟨1, f, [pid]⟩, ⟨2, g, [pid]⟩]
        (fun k => if k = pid then some prov else none) width height).toOption.map
      (fun r => ((r.states 1).map fun s => s.boundingBox,
                 (r.states 2).map fun s => s.boundingBox,
                 r.warnings)) =
    some (some prov.boundingBox, some prov.boundingBox,
      [⟨[⟨"state", 2, none⟩, ⟨"state", 1, none⟩, ⟨"province", pid, some prov.color⟩],
        [g, f], .provinceInMultiStates pid 1 2⟩]) := by
  simp [mergeStateFiles, SortStates.sortStates, SortStates.maxStateId,
    SortStates.sortStep, SortStates.gapScan, SortStates.gapGo, fillStatesGo,
    calculateBoundingBox, validateProvinceInState, vpisGo, vpisProvince,
    mergeRegions, List.foldl, List.foldlM, List.filter, List.filterMap,
    List.map, hsea, hw, hh, seaWarning, stateDanglingWarning,
    Except.bind, Except.map, Bind.bind, Pure.pure, Except.pure]
  exact ⟨_, rfl, ⟨_, rfl, rfl⟩, ⟨_, rfl, rfl⟩, rfl⟩

/-- Witness for the conflict theorem: two records claiming id 5 from
files "a" and "b". -/
theorem sortStates_conflict_witness :
    ∃ r, SortStates.sortStates [⟨5, "a", []⟩, ⟨5, "b", []⟩] = .ok r ∧
      r.sortedStates 5 = some ⟨5, "a", []⟩ ∧
      r.sortedStates (-1) = some ⟨-1, "b", []⟩ ∧
      r.badStateId = -2 ∧
      r.warnings.filter SortStates.isConflictW =
        [SortStates.conflictWarningAtMinusOne "b" "a" 5] := by
  have h := SortStates.sortStates_conflict [] [] [] ⟨5, "a", []⟩ ⟨5, "b", []⟩ 5
    rfl rfl (by decide) (by decide) (by decide) (by decide)
  simpa using h

/-- Witness for the gap-run theorem: present ids {1, 2, 5} produce
exactly one ranged warning for the maximal run 3..4 and no warning for
the non-maximal sub-run 3..3. -/
theorem sortStates_gap_runs_witness :
    ∃ r, SortStates.sortStates [⟨1, "a", []⟩, ⟨2, "a", []⟩, ⟨5, "b", []⟩] = .ok r ∧
      r.warnings.count (SortStates.gapWarning (4 + 1) 3 4) = 1 ∧
      r.warnings.count (SortStates.gapWarning (3 + 1) 3 3) = 0 := by
  have hok : SortStates.sortStates [⟨1, "a", []⟩, ⟨2, "a", []⟩, ⟨5, "b", []⟩] =
      .ok ⟨fun k => if k = 5 then some ⟨5, "b", []⟩ else
             if k = 2 then some ⟨2, "a", []⟩ else
             if k = 1 then some ⟨1, "a", []⟩ else none,
           -1,
           [SortStates.gapWarning 5 3 4]⟩ := rfl
  refine ⟨_, hok, ?_, ?_⟩
  · rw [SortStates.sortStates_gap_runs _ _ hok 3 4]
    rw [if_pos (by decide)]
  · rw [SortStates.sortStates_gap_runs _ _ hok 3 3]
    rw [if_neg (by decide)]

/-- Witness for the bad-id theorem: two sentinel records get ids -1 and
-2; a record with explicit id -7 keeps it. -/
theorem sortStates_bad_ids_witness :
    (∃ r, SortStates.sortStates [⟨-1, "x", []⟩, ⟨-1, "y", []⟩] = .ok r ∧
      r.badStateId = -3 ∧ r.warnings = [] ∧
      r.sortedStates (-2) = some ⟨-2, "y", []⟩) ∧
    (∃ r, SortStates.sortStates [⟨-7, "z", []⟩] = .ok r ∧
      r.sortedStates (-7) = some ⟨-7, "z", []⟩ ∧
      r.badStateId = -1 ∧ r.warnings = []) := by
  constructor
  · obtain ⟨r, hok, hbad, hws, hget⟩ :=
      SortStates.sortStates_bad_ids.1 [⟨-1, "x", []⟩, ⟨-1, "y", []⟩] (by decide)
    refine ⟨r, hok, by simpa using hbad, hws, ?_⟩
    have := hget 1 (by decide)
    simpa using this
  · obtain ⟨r, hok, hr, hbad, hws⟩ :=
      SortStates.sortStates_bad_ids.2 ⟨-7, "z", []⟩ (by decide) (by decide)
    exact ⟨r, hok, hr, hbad, hws⟩

/-- Witness for the no-valid-members theorem: a state declaring two
unresolvable provinces. -/
theorem calculateBoundingBox_no_valid_members_witness :
    (calculateBoundingBox ⟨5, "s", [10, 11]⟩ (fun _ => none) 100 100).1.boundingBox =
      ⟨0, 0, 0, 0⟩ ∧
    (calculateBoundingBox ⟨5, "s", [10, 11]⟩ (fun _ => none) 100 100).1.mass = 0 ∧
    (calculateBoundingBox ⟨5, "s", [10, 11]⟩ (fun _ => none) 100 100).2.count
      (noValidWarning ⟨5, "s", [10, 11]⟩) = 1 := by
  obtain ⟨hb, hc, hm, hw, hcount⟩ :=
    calculateBoundingBox_no_valid_members.1 ⟨5, "s", [10, 11]⟩ (fun _ => none) 100 100
      (fun p _ => rfl)
  exact ⟨hb, hm, by simpa using hcount⟩

/-- Witness for the shared-province theorem: province 7 with box
`{3,3,2,2}` listed by states 1 and 2 on a 100x100 map. -/
theorem mergeStateFiles_shared_province_witness :
    (mergeStateFiles [⟨1, "a.txt", [7]⟩, ⟨2, "b.txt", [7]⟩]
        (fun k => if k = 7 then some ⟨99, "land", [], ⟨3, 3, 2, 2⟩, ⟨4, 4⟩, 1⟩ else none)
        100 100).toOption.map
      (fun r => ((r.states 1).map fun s => s.boundingBox,
                 (r.states 2).map fun s => s.boundingBox,
                 r.warnings)) =
    some (some ⟨3, 3, 2, 2⟩, some ⟨3, 3, 2, 2⟩,
      [⟨[⟨"state", 2, none⟩, ⟨"state", 1, none⟩, ⟨"province", 7, some 99⟩],
        ["b.txt", "a.txt"], .provinceInMultiStates 7 1 2⟩]) :=
  mergeStateFiles_shared_province "a.txt" "b.txt" 7 ⟨99, "land", [], ⟨3, 3, 2, 2⟩, ⟨4, 4⟩, 1⟩
    100 100 (by decide) (by decide) (by decide)

/-! ## Supply-area contiguity -/

/-- `statesAreAdjacent` (supplyarea.ts lines 270-275): some province of
`stateA` has a non-impassable edge pointing to some existing province of
`stateB`.  Note the direction: the edges are read from `stateA`'s
provinces. -/
def statesAreAdjacent (stateA stateB : StateR) (provinces : Int → Option Province) : Bool :=
  stateA.provinces.any fun p =>
    match provinces p with
    | none => false
    | some prov => prov.edges.any fun e =>
        !(e.type == "impassable") && stateB.provinces.any fun p2 =>
          (provinces p2).isSome && e.toId == p2

/-- The first key of `Object.keys` over a JavaScript object keyed by
integer-like ids: array-index keys (non-negative integers) come first in
ascending order, the remaining keys in insertion order.  (The embedded
traversal only ever reads the first key of a non-empty object; `0` is a
dummy for the impossible empty case.) -/
def jsObjectFirstKey (acc : List Int) : Int :=
  match (acc.filter (fun x => 0 ≤ x)).foldl
      (fun m x => match m with
        | none => some x
        | some y => some (min y x)) none with
  | some m => m
  | none => (acc.filter (fun x => x < 0)).headD 0

/-- The DFS loop of `checkStatesContiguous` (supplyarea.ts lines
252-264).  The JavaScript array used as a stack is embedded head-first
(push = cons, `pop()` takes the head — the candidates pushed last are
popped first, as in the source); `accessedStates` is the insertion-order
list of marked ids.  One fuel unit is spent per pop; the caller passes
`states.length + 1` fuel, which provably suffices. -/
def contigGo (states : List StateR) (provinces : Int → Option Province) :
    Nat → List StateR → List Int → List Int
  | 0, _, acc => acc
  | _ + 1, [], acc => acc
  | fuel + 1, cur :: rest, acc =>
      let scan := states.foldl
        (fun (pr : List StateR × List Int) s =>
          if pr.2.contains s.id then pr
          else if statesAreAdjacent s cur provinces then (s :: pr.1, pr.2 ++ [s.id])
          else pr)
        (rest, acc)
      contigGo states provinces fuel scan.1 scan.2

/-- `checkStatesContiguous` (supplyarea.ts lines 243-268): DFS from
`states[0]` over the relation "candidate is `statesAreAdjacent` to the
current state"; `none` when the number of marked ids equals the number
of entries, otherwise the pair `[unreachedState.id,
parseInt(Object.keys(accessedStates)[0])]`.  The `states.find(...)!`
non-null assertion is `Except.error` when every entry's id was marked
even though the counts differ (possible when two entries share an
id). -/
def checkStatesContiguous (states : List StateR) (provinces : Int → Option Province) :
    Except Unit (Option (Int × Int)) :=
  match states with
  | [] => .ok none
  | s0 :: _ =>
      let acc := contigGo states provinces (states.length + 1) [s0] [s0.id]
      if acc.length = states.length then .ok none
      else
        match states.find? (fun s => ! acc.contains s.id) with
        | some s => .ok (some (s.id, jsObjectFirstKey acc))
        | none => .error ()

/-- The claim's member-adjacency relation, following the spec's words
("any leaf province of one is adjacent (non-impassable) to any leaf
province of the other"): the symmetric closure of the code's directed
`statesAreAdjacent`. -/
def specMemberAdjacent (a b : StateR) (provinces : Int → Option Province) : Prop :=
  statesAreAdjacent a b provinces = true ∨ statesAreAdjacent b a provinces = true

/-- Reachability between member ids under the claim's symmetric
relation. -/
def specReachable (states : List StateR) (provinces : Int → Option Province)
    (x y : Int) : Prop :=
  Relation.ReflTransGen
    (fun u v => ∃ su ∈ states, su.id = u ∧ ∃ sv ∈ states, sv.id = v ∧
      specMemberAdjacent su sv provinces) x y

/-- The step relation actually traversed by the code: from the current
member to a candidate whose provinces have an edge to the current
member's provinces (`statesAreAdjacent candidate current`). -/
def codeStep (states : List StateR) (provinces : Int → Option Province)
    (u v : Int) : Prop :=
  ∃ su ∈ states, su.id = u ∧ ∃ sv ∈ states, sv.id = v ∧
    statesAreAdjacent sv su provinces = true

/-- Reachability between member ids under the code's directed step
relation. -/
def codeReachable (states : List StateR) (provinces : Int → Option Province)
    (x y : Int) : Prop :=
  Relation.ReflTransGen (codeStep states provinces) x y

/-- Province 1 of the contiguity exhibit: a single non-impassable edge
pointing at province 2. -/
def contigProvA : Province := ⟨0, "land", [⟨2, "land"⟩], ⟨0, 0, 1, 1⟩, ⟨0, 0⟩, 1⟩

/-- Province 2 of the contiguity exhibit: no edges at all. -/
def contigProvB : Province := ⟨0, "land", [], ⟨0, 0, 1, 1⟩, ⟨0, 0⟩, 1⟩

/-- The province table of the contiguity exhibit. -/
def contigTable : Int → Option Province := fun k =>
  if k = 1 then some contigProvA else if k = 2 then some contigProvB else none

/-- Member state 1 of the contiguity exhibit, owning province 1. -/
def contigStateA : StateR := ⟨1, "a", [1], ⟨0, 0, 0, 0⟩, ⟨0, 0⟩, 0⟩

/-- Member state 2 of the contiguity exhibit, owning province 2. -/
def contigStateB : StateR := ⟨2, "b", [2], ⟨0, 0, 0, 0⟩, ⟨0, 0⟩, 0⟩

/-- C3 counterexample.  First part: states 1 and 2 are adjacent under
the claim's symmetric relation (province 1 has a non-impassable edge to
the existing province 2), so every member is reachable from the starting
member and the claim requires `undefined`; but the code only follows
edges read from the candidate's provinces, finds no edge from province 2,
and returns the pair `(2, 1)`.  Second part: with two entries for the
same member, every member is trivially reachable, yet the code's
`states.find(...)!` assertion crashes instead of returning
`undefined`. -/
theorem checkStatesContiguous_counterexample :
    (∀ s ∈ [contigStateA, contigStateB],
      specReachable [contigStateA, contigStateB] contigTable 1 s.id) ∧
    checkStatesContiguous [contigStateA, contigStateB] contigTable = .ok (some (2, 1)) ∧
    (∀ s ∈ [contigStateA, contigStateA],
      specReachable [contigStateA, contigStateA] contigTable 1 s.id) ∧
    checkStatesContiguous [contigStateA, contigStateA] contigTable = .error () := by
  refine ⟨?_, rfl, ?_, rfl⟩
  · intro s hs
    rcases List.mem_cons.mp hs with h | h
    · subst h
      exact Relation.ReflTransGen.refl
    · rcases List.mem_cons.mp h with h | h
      · subst h
        exact Relation.ReflTransGen.single
          ⟨contigStateA, by simp, rfl, contigStateB, by simp, rfl,
            Or.inl (by decide)⟩
      · simp at h
  · intro s hs
    have : s = contigStateA := by
      rcases List.mem_cons.mp hs with h | h
      · exact h
      · rcases List.mem_cons.mp h with h | h
        · exact h
        · simp at h
    subst this
    exact Relation.ReflTransGen.refl

namespace Contig

/-- The candidate scan of one DFS iteration (the `for (const state of
states)` loop body of `checkStatesContiguous`). -/
def scanStep (provinces : Int → Option Province) (cur : StateR)
    (pr : List StateR × List Int) (s : StateR) : List StateR × List Int :=
  if pr.2.contains s.id then pr
  else if statesAreAdjacent s cur provinces then (s :: pr.1, pr.2 ++ [s.id])
  else pr

theorem contigGo_as_scan (states : List StateR) (provinces : Int → Option Province)
    (fuel : Nat) (cur : StateR) (rest : List StateR) (acc : List Int) :
    contigGo states provinces (fuel + 1) (cur :: rest) acc =
      contigGo states provinces fuel
        (states.foldl (scanStep provinces cur) (rest, acc)).1
        (states.foldl (scanStep provinces cur) (rest, acc)).2 := rfl

/-- Properties of one full candidate scan, established together by one
induction over the scanned list. -/
theorem scan_spec (provinces : Int → Option Province) (cur : StateR) (sc : List StateR) :
    ∀ (st0 : List StateR) (acc0 : List Int),
      (∀ x ∈ acc0, x ∈ (sc.foldl (scanStep provinces cur) (st0, acc0)).2) ∧
      ((sc.foldl (scanStep provinces cur) (st0, acc0)).1.length + acc0.length =
        st0.length + (sc.foldl (scanStep provinces cur) (st0, acc0)).2.length) ∧
      (acc0.Nodup → (sc.foldl (scanStep provinces cur) (st0, acc0)).2.Nodup) ∧
      (∀ x ∈ (sc.foldl (scanStep provinces cur) (st0, acc0)).2,
        x ∈ acc0 ∨ ∃ s ∈ sc, s.id = x ∧ statesAreAdjacent s cur provinces = true) ∧
      (∀ s ∈ (sc.foldl (scanStep provinces cur) (st0, acc0)).1, s ∈ st0 ∨ s ∈ sc) ∧
      ((∀ s ∈ st0, s.id ∈ acc0) → ∀ s ∈ (sc.foldl (scanStep provinces cur) (st0, acc0)).1,
        s.id ∈ (sc.foldl (scanStep provinces cur) (st0, acc0)).2) ∧
      (∀ s ∈ sc, statesAreAdjacent s cur provinces = true →
        s.id ∈ (sc.foldl (scanStep provinces cur) (st0, acc0)).2) ∧
      (∀ x ∈ (sc.foldl (scanStep provinces cur) (st0, acc0)).2,
        x ∈ acc0 ∨ ∃ s ∈ (sc.foldl (scanStep provinces cur) (st0, acc0)).1, s.id = x) ∧
      (∀ s ∈ st0, s ∈ (sc.foldl (scanStep provinces cur) (st0, acc0)).1) := by
  induction sc with
  | nil =>
      intro st0 acc0
      refine ⟨fun x hx => hx, rfl, fun h => h, ?_, ?_, ?_, ?_, ?_, ?_⟩
      · intro x hx; exact Or.inl hx
      · intro s hs; exact Or.inl hs
      · intro h s hs; exact h s hs
      · intro s hs; simp at hs
      · intro x hx; exact Or.inl hx
      · intro s hs; exact hs
  | cons s t ih =>
      intro st0 acc0
      rw [List.foldl_cons]
      by_cases hc : acc0.contains s.id
      · have hstep : scanStep provinces cur (st0, acc0) s = (st0, acc0) := by
          unfold scanStep
          rw [if_pos hc]
        rw [hstep]
        obtain ⟨m1, t1, t2, s1, i1, i2, c1, p1, k1⟩ := ih st0 acc0
        refine ⟨m1, t1, t2, ?_, ?_, i2, ?_, p1, k1⟩
        · intro x hx
          rcases s1 x hx with h | ⟨q, hq, hqx, hadj⟩
          · exact Or.inl h
          · exact Or.inr ⟨q, by simp [hq], hqx, hadj⟩
        · intro q hq
          rcases i1 q hq with h | h
          · exact Or.inl h
          · exact Or.inr (by simp [h])
        · intro q hq hadj
          rcases List.mem_cons.mp hq with h | h
          · subst h
            exact m1 q.id (List.elem_iff.mp hc)
          · exact c1 q h hadj
      · by_cases hadj : statesAreAdjacent s cur provinces = true
        · have hstep : scanStep provinces cur (st0, acc0) s = (s :: st0, acc0 ++ [s.id]) := by
            unfold scanStep
            rw [if_neg (by simpa using hc), if_pos hadj]
          rw [hstep]
          obtain ⟨m1, t1, t2, s1, i1, i2, c1, p1, k1⟩ := ih (s :: st0) (acc0 ++ [s.id])
          have hnotmem : s.id ∉ acc0 := fun h => hc (List.elem_iff.mpr h)
          refine ⟨?_, ?_, ?_, ?_, ?_, ?_, ?_, ?_, ?_⟩
          · intro x hx
            exact m1 x (by simp [hx])
          · have t1' := t1
            simp only [List.length_append, List.length_cons, List.length_nil] at t1'
            omega
          · intro hnd
            exact t2 (by simp [List.nodup_append, hnd, hnotmem])
          · intro x hx
            rcases s1 x hx with h | ⟨q, hq, hqx, hq2⟩
            · rcases List.mem_append.mp h with h | h
              · exact Or.inl h
              · simp only [List.mem_singleton] at h
                exact Or.inr ⟨s, by simp, h.symm, hadj⟩
            · exact Or.inr ⟨q, by simp [hq], hqx, hq2⟩
          · intro q hq
            rcases i1 q hq with h | h
            · rcases List.mem_cons.mp h with h | h
              · exact Or.inr (by simp [h])
              · exact Or.inl h
            · exact Or.inr (by simp [h])
          · intro hids q hq
            apply i2 _ q hq
            intro q' hq'
            rcases List.mem_cons.mp hq' with h | h
            · subst h; simp
            · simp [hids q' h]
          · intro q hq hq2
            rcases List.mem_cons.mp hq with h | h
            · subst h
              exact m1 q.id (by simp)
            · exact c1 q h hq2
          · intro x hx
            rcases p1 x hx with h | h
            · rcases List.mem_append.mp h with h | h
              · exact Or.inl h
              · simp only [List.mem_singleton] at h
                subst h
                exact Or.inr ⟨s, k1 s (by simp), rfl⟩
            · exact Or.inr h
          · intro q hq
            exact k1 q (by simp [hq])
        · have hstep : scanStep provinces cur (st0, acc0) s = (st0, acc0) := by
            unfold scanStep
            rw [if_neg (by simpa using hc), if_neg hadj]
          rw [hstep]
          obtain ⟨m1, t1, t2, s1, i1, i2, c1, p1, k1⟩ := ih st0 acc0
          refine ⟨m1, t1, t2, ?_, ?_, i2, ?_, p1, k1⟩
          · intro x hx
            rcases s1 x hx with h | ⟨q, hq, hqx, hq2⟩
            · exact Or.inl h
            · exact Or.inr ⟨q, by simp [hq], hqx, hq2⟩
          · intro q hq
            rcases i1 q hq with h | h
            · exact Or.inl h
            · exact Or.inr (by simp [h])
          · intro q hq hq2
            rcases List.mem_cons.mp hq with h | h
            · subst h
              exact absurd hq2 hadj
            · exact c1 q h hq2

end Contig

namespace Contig

/-- Invariant-based characterization of the DFS loop: with enough fuel,
the returned mark list is sound (only reachable ids), duplicate-free,
drawn from the member ids, extends the incoming marks, and is closed
under the traversal's step relation. -/
theorem contigGo_spec (states : List StateR) (provinces : Int → Option Province)
    (hnd : (states.map StateR.id).Nodup) (start : Int) :
    ∀ (fuel : Nat) (stack : List StateR) (acc : List Int),
      (∀ s ∈ stack, s ∈ states) →
      acc.Nodup →
      (∀ x ∈ acc, x ∈ states.map StateR.id) →
      (∀ s ∈ stack, s.id ∈ acc) →
      (∀ x ∈ acc, codeReachable states provinces start x) →
      (∀ c ∈ states, c.id ∈ acc →
        (∃ t ∈ stack, t.id = c.id) ∨
        (∀ s ∈ states, statesAreAdjacent s c provinces = true → s.id ∈ acc)) →
      stack.length + (states.map StateR.id).length ≤ fuel + acc.length →
      (∀ x ∈ contigGo states provinces fuel stack acc,
          codeReachable states provinces start x) ∧
      (contigGo states provinces fuel stack acc).Nodup ∧
      (∀ x ∈ contigGo states provinces fuel stack acc, x ∈ states.map StateR.id) ∧
      (∀ x ∈ acc, x ∈ contigGo states provinces fuel stack acc) ∧
      (∀ c ∈ states, c.id ∈ contigGo states provinces fuel stack acc →
        ∀ s ∈ states, statesAreAdjacent s c provinces = true →
          s.id ∈ contigGo states provinces fuel stack acc) := by
  intro fuel
  induction fuel with
  | zero =>
      intro stack acc hstack hnd2 hsub hids hreach hclosed hfuel
      have hlen : acc.length ≤ (states.map StateR.id).length := (hnd2.subperm hsub).length_le
      have hempty : stack = [] := by
        cases stack with
        | nil => rfl
        | cons c r => simp only [List.length_cons] at hfuel; omega
      subst hempty
      simp only [contigGo]
      refine ⟨hreach, hnd2, hsub, fun x hx => hx, ?_⟩
      intro c hc hcacc s hs hadj
      rcases hclosed c hc hcacc with ⟨t, ht, -⟩ | h
      · simp at ht
      · exact h s hs hadj
  | succ n ih =>
      intro stack acc hstack hnd2 hsub hids hreach hclosed hfuel
      cases stack with
      | nil =>
          simp only [contigGo]
          refine ⟨hreach, hnd2, hsub, fun x hx => hx, ?_⟩
          intro c hc hcacc s hs hadj
          rcases hclosed c hc hcacc with ⟨t, ht, -⟩ | h
          · simp at ht
          · exact h s hs hadj
      | cons cur rest =>
          rw [show contigGo states provinces (n + 1) (cur :: rest) acc =
            contigGo states provinces n
              (states.foldl (scanStep provinces cur) (rest, acc)).1
              (states.foldl (scanStep provinces cur) (rest, acc)).2 from rfl]
          obtain ⟨m1, t1, t2, s1, i1, i2, c1, p1, k1⟩ := scan_spec provinces cur states rest acc
          have hcur_states : cur ∈ states := hstack cur (by simp)
          have hcur_reach : codeReachable states provinces start cur.id :=
            hreach cur.id (hids cur (by simp))
          have hinj : ∀ x ∈ states, ∀ y ∈ states, x.id = y.id → x = y :=
            fun x hx y hy => List.inj_on_of_nodup_map hnd hx hy
          have harg1 : ∀ s ∈ (states.foldl (scanStep provinces cur) (rest, acc)).1,
              s ∈ states := by
            intro s hs
            rcases i1 s hs with h | h
            · exact hstack s (by simp [h])
            · exact h
          have harg2 := t2 hnd2
          have harg3 : ∀ x ∈ (states.foldl (scanStep provinces cur) (rest, acc)).2,
              x ∈ states.map StateR.id := by
            intro x hx
            rcases s1 x hx with h | ⟨q, hq, hqx, -⟩
            · exact hsub x h
            · exact hqx ▸ List.mem_map_of_mem StateR.id hq
          have harg4 := i2 (fun s hs => hids s (by simp [hs]))
          have harg5 : ∀ x ∈ (states.foldl (scanStep provinces cur) (rest, acc)).2,
              codeReachable states provinces start x := by
            intro x hx
            rcases s1 x hx with h | ⟨q, hq, hqx, hadj⟩
            · exact hreach x h
            · exact Relation.ReflTransGen.tail hcur_reach
                ⟨cur, hcur_states, rfl, q, hq, hqx, hadj⟩
          have harg6 : ∀ c ∈ states,
              c.id ∈ (states.foldl (scanStep provinces cur) (rest, acc)).2 →
              (∃ t ∈ (states.foldl (scanStep provinces cur) (rest, acc)).1, t.id = c.id) ∨
              (∀ s ∈ states, statesAreAdjacent s c provinces = true →
                s.id ∈ (states.foldl (scanStep provinces cur) (rest, acc)).2) := by
            intro c hc hcacc
            rcases s1 c.id hcacc with h | ⟨q, hq, hqid, -⟩
            · rcases hclosed c hc h with ⟨t, ht, htid⟩ | h2
              · rcases List.mem_cons.mp ht with ht1 | ht1
                · subst ht1
                  have hceq : c = t := hinj c hc t hcur_states htid.symm
                  right
                  intro s hs hadj
                  exact c1 s hs (hceq ▸ hadj)
                · left
                  exact ⟨t, k1 t ht1, htid⟩
              · right
                intro s hs hadj
                exact m1 s.id (h2 s hs hadj)
            · rcases p1 c.id hcacc with h | ⟨t, ht, htid⟩
              · rcases hclosed c hc h with ⟨t, ht2, htid⟩ | h2
                · rcases List.mem_cons.mp ht2 with ht1 | ht1
                  · subst ht1
                    have hceq : c = t := hinj c hc t hcur_states htid.symm
                    right
                    intro s hs hadj
                    exact c1 s hs (hceq ▸ hadj)
                  · left
                    exact ⟨t, k1 t ht1, htid⟩
                · right
                  intro s hs hadj
                  exact m1 s.id (h2 s hs hadj)
              · left
                exact ⟨t, ht, htid⟩
          have harg7 : (states.foldl (scanStep provinces cur) (rest, acc)).1.length +
              (states.map StateR.id).length ≤
              n + (states.foldl (scanStep provinces cur) (rest, acc)).2.length := by
            simp only [List.length_cons] at hfuel
            omega
          obtain ⟨r1, r2, r3, r4, r5⟩ := ih _ _ harg1 harg2 harg3 harg4 harg5 harg6 harg7
          exact ⟨r1, r2, r3, fun x hx => r4 x (m1 x hx), r5⟩

end Contig

namespace Contig

theorem minFold_mem (S : List Int) :
    ∀ (l : List Int) (o : Option Int),
      (∀ y, o = some y → y ∈ S) → (∀ x ∈ l, x ∈ S) →
      ∀ m, l.foldl (fun m x => match m with
        | none => some x
        | some y => some (min y x)) o = some m → m ∈ S := by
  intro l
  induction l with
  | nil =>
      intro o ho _ m hm
      exact ho m hm
  | cons x t ih =>
      intro o ho hl m hm
      rw [List.foldl_cons] at hm
      refine ih _ ?_ (fun z hz => hl z (by simp [hz])) m hm
      intro y hy
      cases o with
      | none =>
          simp only at hy
          rw [← Option.some.injEq x y |>.mp hy]
          exact hl x (by simp)
      | some w =>
          simp only at hy
          have : y = min w x := ((Option.some.injEq _ _).mp hy).symm
          rcases min_choice w x with h | h
          · rw [this, h]; exact ho w rfl
          · rw [this, h]; exact hl x (by simp)

theorem jsObjectFirstKey_mem (acc : List Int) (h : acc ≠ []) :
    jsObjectFirstKey acc ∈ acc := by
  unfold jsObjectFirstKey
  cases hfold : (acc.filter (fun x => 0 ≤ x)).foldl
      (fun m x => match m with
        | none => some x
        | some y => some (min y x)) none with
  | some m =>
      exact minFold_mem acc _ none (by simp)
        (fun x hx => (List.mem_filter.mp hx).1) m hfold
  | none =>
      have hallneg : ∀ x ∈ acc, x < 0 := by
        intro x hx
        by_contra hge
        push_neg at hge
        have hmem : x ∈ acc.filter (fun x => 0 ≤ x) := by
          rw [List.mem_filter]
          exact ⟨hx, by simpa using hge⟩
        cases hfe : acc.filter (fun x => 0 ≤ x) with
        | nil => rw [hfe] at hmem; simp at hmem
        | cons a t =>
            rw [hfe, List.foldl_cons] at hfold
            have : ∀ (l : List Int) (y : Int), l.foldl (fun m x => match m with
                | none => some x
                | some y => some (min y x)) (some y) ≠ none := by
              intro l
              induction l with
              | nil => intro y hy; exact Option.noConfusion hy
              | cons b r ihr => intro y hy; exact ihr _ hy
            exact this t a hfold
      cases hacc : acc with
      | nil => exact absurd hacc h
      | cons a t =>
          have ha : a < 0 := hallneg a (by rw [hacc]; simp)
          subst hacc
          simp [List.filter_cons, ha]

end Contig

/-- C3 (amended): for a non-empty member list whose ids are pairwise
distinct, `checkStatesContiguous` returns `undefined` (`.ok none`)
exactly when every member is reachable from the first member along the
directed step relation the code traverses — a step reaches a candidate
member whose provinces carry a non-impassable edge to an existing
province of an already-reached member (chains count, so A-B plus B-C is
contiguous without a direct A-C edge); otherwise it returns the pair of
an unreached member's id and a reached member's id. -/
theorem checkStatesContiguous_spec (s0 : StateR) (rest : List StateR)
    (provinces : Int → Option Province)
    (hnd : ((s0 :: rest).map StateR.id).Nodup) :
    (checkStatesContiguous (s0 :: rest) provinces = .ok none ↔
      ∀ s ∈ s0 :: rest, codeReachable (s0 :: rest) provinces s0.id s.id) ∧
    (∀ u r, checkStatesContiguous (s0 :: rest) provinces = .ok (some (u, r)) →
      (∃ s ∈ s0 :: rest, s.id = u) ∧
      ¬ codeReachable (s0 :: rest) provinces s0.id u ∧
      (∃ s ∈ s0 :: rest, s.id = r) ∧
      codeReachable (s0 :: rest) provinces s0.id r) := by
  classical
  set states := s0 :: rest with hstates
  set A := contigGo states provinces (states.length + 1) [s0] [s0.id] with hA
  have hdef : checkStatesContiguous states provinces =
      (if A.length = states.length then Except.ok none
       else match states.find? (fun s => ! A.contains s.id) with
            | some s => .ok (some (s.id, jsObjectFirstKey A))
            | none => .error ()) := rfl
  obtain ⟨hSound, hNodup, hSub, hExt, hClosed⟩ :=
    Contig.contigGo_spec states provinces hnd s0.id (states.length + 1) [s0] [s0.id]
      (by intro s hs; rw [List.mem_singleton] at hs; rw [hs, hstates]; simp)
      (by simp)
      (by
        intro x hx
        rw [List.mem_singleton] at hx
        rw [hx, hstates]
        simp)
      (by intro s hs; rw [List.mem_singleton] at hs; rw [hs]; simp)
      (by
        intro x hx
        rw [List.mem_singleton] at hx
        rw [hx]
        exact Relation.ReflTransGen.refl)
      (by
        intro c hc hcacc
        rw [List.mem_singleton] at hcacc
        exact Or.inl ⟨s0, by simp, hcacc.symm⟩)
      (by
        simp only [List.length_singleton, List.length_map]
        omega)
  have hstart : s0.id ∈ A := hExt s0.id (by simp)
  have hComplete : ∀ y, codeReachable states provinces s0.id y → y ∈ A := by
    intro y hy
    induction hy with
    | refl => exact hstart
    | tail hsteps hstep ih =>
        rcases hstep with ⟨sx, hsx, hsxid, sy, hsy, hsyid, hadj⟩
        have hsxA : sx.id ∈ A := by rw [hsxid]; exact ih
        have := hClosed sx hsx hsxA sy hsy hadj
        rw [← hsyid]
        exact this
  have hlen_iff : A.length = states.length ↔ ∀ s ∈ states, s.id ∈ A := by
    constructor
    · intro hlen
      have hsp : A.Subperm (states.map StateR.id) := hNodup.subperm hSub
      have hperm : A.Perm (states.map StateR.id) :=
        hsp.perm_of_length_le (by rw [hlen, List.length_map])
      intro s hs
      exact hperm.mem_iff.mpr (List.mem_map_of_mem StateR.id hs)
    · intro hall
      have hsub2 : (states.map StateR.id) ⊆ A := by
        intro x hx
        rw [List.mem_map] at hx
        rcases hx with ⟨s, hs, hsx⟩
        rw [← hsx]
        exact hall s hs
      have h1 : (states.map StateR.id).length ≤ A.length :=
        (hnd.subperm hsub2).length_le
      have h2 : A.length ≤ (states.map StateR.id).length :=
        (hNodup.subperm hSub).length_le
      rw [List.length_map] at h1 h2
      omega
  constructor
  · constructor
    · intro hok
      by_cases hc : A.length = states.length
      · intro s hs
        exact hSound s.id (hlen_iff.mp hc s hs)
      · rw [hdef, if_neg hc] at hok
        cases hfind : states.find? (fun s => ! A.contains s.id) with
        | some s => rw [hfind] at hok; simp at hok
        | none => rw [hfind] at hok; exact Except.noConfusion hok
    · intro hreach
      rw [hdef, if_pos (hlen_iff.mpr (fun s hs => hComplete s.id (hreach s hs)))]
  · intro u r hok
    by_cases hc : A.length = states.length
    · rw [hdef, if_pos hc] at hok
      simp at hok
    · rw [hdef, if_neg hc] at hok
      cases hfind : states.find? (fun s => ! A.contains s.id) with
      | none => rw [hfind] at hok; exact Except.noConfusion hok
      | some s =>
          rw [hfind] at hok
          have hpair : s.id = u ∧ jsObjectFirstKey A = r := by
            have := Except.ok.inj hok
            have := Option.some.inj this
            exact ⟨congrArg Prod.fst this, congrArg Prod.snd this⟩
          have hsmem : s ∈ states := List.mem_of_find?_eq_some hfind
          have hsnot : s.id ∉ A := by
            have hfs := List.find?_some hfind
            simpa using hfs
          have hr_mem : jsObjectFirstKey A ∈ A :=
            Contig.jsObjectFirstKey_mem A (by
              intro hnil
              rw [hnil] at hstart
              simp at hstart)
          refine ⟨⟨s, hsmem, hpair.1⟩, ?_, ?_, ?_⟩
          · intro hreach
            rw [← hpair.1] at hreach
            exact hsnot (hComplete s.id hreach)
          · have := hSub _ hr_mem
            rw [List.mem_map] at this
            rcases this with ⟨q, hq, hqid⟩
            exact ⟨q, hq, by rw [hqid, hpair.2]⟩
          · rw [← hpair.2]
            exact hSound _ hr_mem

/-- Witness for the contiguity theorem: starting from state 2, state 1
is reachable through the directed relation (province 1 carries the edge
toward province 2), so the check reports contiguous. -/
theorem checkStatesContiguous_spec_witness :
    checkStatesContiguous [contigStateB, contigStateA] contigTable = .ok none := by
  have h := checkStatesContiguous_spec contigStateB [contigStateA] contigTable (by decide)
  apply h.1.mpr
  intro s hs
  rcases List.mem_cons.mp hs with h1 | h1
  · subst h1
    exact Relation.ReflTransGen.refl
  · rcases List.mem_cons.mp h1 with h2 | h2
    · subst h2
      exact Relation.ReflTransGen.single
        ⟨contigStateB, by simp, rfl, contigStateA, by simp, rfl, by decide⟩
    · simp at h2

/-! ## Supply-area validation -/

/-- A supply area with its region attached (the `SupplyArea` type of
`definitions.ts`, restricted to the fields the embedded code reads). -/
structure SupplyAreaR where
  id : Int
  file : String
  states : List Int
  boundingBox : Zone
  centerOfMass : Point
  mass : Int
  deriving Repr, DecidableEq

/-- One iteration of `supplyArea.states.map(...)` inside
`validateStatesInSupplyAreas` (supplyarea.ts lines 196-216): a state id
already in the reverse map returns early (filtered out, no warning) when
the state does not exist, otherwise pushes a multi-supply-area warning
referencing all three files; a first claim registers the supply area
unconditionally; existing states are collected for the contiguity
check.  The `supplyAreas[stateToSupplyArea[s]]!` non-null assertion is
`Except.error` when the lookup fails. -/
def vsisState (states : Int → Option StateR) (supplyAreas : Int → Option SupplyAreaR)
    (sa : SupplyAreaR)
    (acc : (Int → Option Int) × List Warning × List StateR) (s : Int) :
    Except Unit ((Int → Option Int) × List Warning × List StateR) :=
  let m := acc.1
  let ws := acc.2.1
  let collected := acc.2.2
  let state := states s
  match m s with
  | some owner =>
      match state with
      | none => .ok (m, ws, collected)
      | some st =>
          match supplyAreas owner with
          | none => .error ()
          | some ownerSa =>
              let w : Warning :=
                { source := [⟨"supplyarea", sa.id, none⟩, ⟨"supplyarea", owner, none⟩,
                             ⟨"state", s, none⟩]
                  relatedFiles := [sa.file, ownerSa.file, st.file]
                  text := .stateInMultipleSupplyAreas s owner sa.id }
              .ok (m, ws ++ [w], collected ++ [st])
  | none =>
      let m' := fun k => if k = s then some sa.id else m k
      match state with
      | some st => .ok (m', ws, collected ++ [st])
      | none => .ok (m', ws, collected)

/-- Processing of one occupied supply-area slot `i`: collect the member
states, then run the contiguity check and, when it reports a pair, push
the non-contiguous warning (the source and the message use the slot
index `i`). -/
def vsisArea (provinces : Int → Option Province) (states : Int → Option StateR)
    (supplyAreas : Int → Option SupplyAreaR) (i : Int) (sa : SupplyAreaR)
    (m : Int → Option Int) (ws : List Warning) :
    Except Unit ((Int → Option Int) × List Warning) := do
  let acc ← sa.states.foldlM (vsisState states supplyAreas sa) (m, ws, [])
  match checkStatesContiguous acc.2.2 provinces with
  | .error _ => .error ()
  | .ok none => .ok (acc.1, acc.2.1)
  | .ok (some (b0, b1)) =>
      .ok (acc.1, acc.2.1 ++
        [({ source := [⟨"supplyarea", i, none⟩]
            relatedFiles := [sa.file]
            text := .statesNotContiguous i b0 b1 } : Warning)])

/-- The outer supply-area loop of `validateStatesInSupplyAreas`:
`for (let i = badSupplyAreasCount; i < supplyAreas.length; i++)`. -/
def vsisGo (provinces : Int → Option Province) (states : Int → Option StateR)
    (supplyAreas : Int → Option SupplyAreaR) :
    Nat → Int → ((Int → Option Int) × List Warning) →
    Except Unit ((Int → Option Int) × List Warning)
  | 0, _, acc => .ok acc
  | fuel + 1, i, acc =>
      match supplyAreas i with
      | none => vsisGo provinces states supplyAreas fuel (i + 1) acc
      | some sa => do
          let acc' ← vsisArea provinces states supplyAreas i sa acc.1 acc.2
          vsisGo provinces states supplyAreas fuel (i + 1) acc'

/-- The trailing loop of `validateStatesInSupplyAreas`
(`for (let i = 1; i < states.length; i++)`): every existing state whose
id was never claimed gets a "not in any supply area" warning. -/
def noSupplyAreaGo (states : Int → Option StateR) (m : Int → Option Int) :
    Nat → Int → List Warning
  | 0, _ => []
  | fuel + 1, i =>
      match states i with
      | none => noSupplyAreaGo states m fuel (i + 1)
      | some st =>
          if (m i).isSome then noSupplyAreaGo states m fuel (i + 1)
          else ({ source := [⟨"state", i, none⟩]
                  relatedFiles := [st.file]
                  text := .stateNoSupplyArea i } : Warning) ::
            noSupplyAreaGo states m fuel (i + 1)

/-- `validateStatesInSupplyAreas` (supplyarea.ts lines 181-241),
returning the warnings pushed in order. -/
def validateStatesInSupplyAreas (states : Int → Option StateR)
    (supplyAreas : Int → Option SupplyAreaR) (provinces : Int → Option Province)
    (badSupplyAreasCount saLen stLen : Int) : Except Unit (List Warning) := do
  let acc ← vsisGo provinces states supplyAreas (saLen - badSupplyAreasCount).toNat
    badSupplyAreasCount (fun _ => none, [])
  .ok (acc.2 ++ noSupplyAreaGo states acc.1 (stLen - 1).toNat 1)

namespace MultiParent

/-- `true` iff the warning reports province `p` as belonging to multiple
states. -/
def isMultiStateForP (p : Int) (w : Warning) : Bool :=
  match w.text with
  | .provinceInMultiStates q _ _ => q == p
  | _ => false

/-- `true` iff the warning reports state `s` as belonging to multiple
supply areas. -/
def isMultiSupplyForS (s : Int) (w : Warning) : Bool :=
  match w.text with
  | .stateInMultipleSupplyAreas q _ _ => q == s
  | _ => false

/-- Warnings added by one effectful fold step either carry over or
satisfy the predicate-free condition; lifted through `List.foldlM`. -/
theorem foldlM_warning_pred {α β : Type} (step : β → α → Except Unit β)
    (proj : β → List Warning) (pred : Warning → Bool)
    (hstep : ∀ acc x res, step acc x = .ok res →
      ∀ w ∈ proj res, w ∈ proj acc ∨ pred w = false) :
    ∀ (L : List α) (acc res : β), L.foldlM step acc = .ok res →
      ∀ w ∈ proj res, w ∈ proj acc ∨ pred w = false := by
  intro L
  induction L with
  | nil =>
      intro acc res hres w hw
      rw [List.foldlM_nil] at hres
      cases hres
      exact Or.inl hw
  | cons x t ih =>
      intro acc res hres w hw
      rw [List.foldlM_cons] at hres
      cases hmid : step acc x with
      | error e => rw [hmid] at hres; exact Except.noConfusion hres
      | ok mid =>
          rw [hmid] at hres
          simp only [Bind.bind, Except.bind] at hres
          rcases ih mid res hres w hw with h | h
          · exact hstep acc x mid hmid w h
          · exact Or.inr h
end MultiParent

namespace MultiParent

/-- When province `p` does not exist, no iteration of the inner
validation loop ever pushes a multi-state warning for `p`: the duplicate
branch returns early on the missing province, and warnings about other
provinces carry other ids. -/
theorem vpisProvince_no_multi (provinces : Int → Option Province)
    (states : Int → Option StateR) (st : StateR) (p : Int)
    (hp : provinces p = none) :
    ∀ acc x res, vpisProvince provinces states st acc x = .ok res →
      ∀ w ∈ res.2, w ∈ acc.2 ∨ isMultiStateForP p w = false := by
  intro acc x res hres w hw
  unfold vpisProvince at hres
  dsimp only at hres
  cases hm : acc.1 x with
  | some owner =>
      simp only [hm] at hres
      cases hprov : provinces x with
      | none =>
          simp only [hprov] at hres
          cases hres
          exact Or.inl hw
      | some prov =>
          have hxp : x ≠ p := by
            intro h
            rw [h, hp] at hprov
            exact Option.noConfusion hprov
          simp only [hprov] at hres
          cases hos : states owner with
          | none => simp only [hos] at hres; exact Except.noConfusion hres
          | some ownerSt =>
              simp only [hos] at hres
              by_cases hsea : prov.type = "sea"
              · rw [if_pos hsea] at hres
                cases hres
                rcases List.mem_append.mp hw with h | h
                · rcases List.mem_append.mp h with h1 | h1
                  · exact Or.inl h1
                  · rw [List.mem_singleton] at h1
                    subst h1
                    right
                    simp [isMultiStateForP, hxp]
                · rw [List.mem_singleton] at h
                  subst h
                  right
                  rfl
              · rw [if_neg hsea] at hres
                cases hres
                rcases List.mem_append.mp hw with h | h
                · exact Or.inl h
                · rw [List.mem_singleton] at h
                  subst h
                  right
                  simp [isMultiStateForP, hxp]
  | none =>
      simp only [hm] at hres
      cases hprov : provinces x with
      | none =>
          simp only [hprov] at hres
          cases hres
          exact Or.inl hw
      | some prov =>
          simp only [hprov] at hres
          by_cases hsea : prov.type = "sea"
          · rw [if_pos hsea] at hres
            cases hres
            rcases List.mem_append.mp hw with h | h
            · exact Or.inl h
            · rw [List.mem_singleton] at h
              subst h
              right
              rfl
          · rw [if_neg hsea] at hres
            cases hres
            exact Or.inl hw

/-- The outer loop preserves the same property. -/
theorem vpisGo_no_multi (provinces : Int → Option Province)
    (states : Int → Option StateR) (p : Int) (hp : provinces p = none) :
    ∀ (fuel : Nat) (i : Int) acc res,
      vpisGo provinces states fuel i acc = .ok res →
      ∀ w ∈ res.2, w ∈ acc.2 ∨ isMultiStateForP p w = false := by
  intro fuel
  induction fuel with
  | zero =>
      intro i acc res hres w hw
      cases hres
      exact Or.inl hw
  | succ n ih =>
      intro i acc res hres w hw
      unfold vpisGo at hres
      cases hi : states i with
      | none =>
          simp only [hi] at hres
          exact ih (i + 1) acc res hres w hw
      | some st =>
          simp only [hi] at hres
          cases hmid : st.provinces.foldlM (vpisProvince provinces states st) acc with
          | error e =>
              simp only [hmid, Bind.bind, Except.bind] at hres
              exact Except.noConfusion hres
          | ok mid =>
              simp only [hmid, Bind.bind, Except.bind] at hres
              rcases ih (i + 1) mid res hres w hw with h | h
              · exact foldlM_warning_pred (vpisProvince provinces states st)
                  (fun a => a.2) (isMultiStateForP p)
                  (vpisProvince_no_multi provinces states st p hp)
                  st.provinces acc mid hmid w h
              · exact Or.inr h

/-- C10, states half: a province id that resolves to no existing
province never receives a multi-state warning from
`validateProvinceInState`, whatever the states table. -/
theorem validateProvinceInState_no_multi (provinces : Int → Option Province)
    (states : Int → Option StateR) (badStatesCount len p : Int)
    (hp : provinces p = none) (ws : List Warning)
    (hok : validateProvinceInState provinces states badStatesCount len = .ok ws) :
    ws.filter (isMultiStateForP p) = [] := by
  unfold validateProvinceInState at hok
  cases hgo : vpisGo provinces states (len - badStatesCount).toNat badStatesCount
      (fun _ => none, []) with
  | error e => rw [hgo] at hok; exact Except.noConfusion hok
  | ok acc =>
      rw [hgo] at hok
      simp only [Except.map] at hok
      cases hok
      rw [List.filter_eq_nil_iff]
      intro w hw
      rcases vpisGo_no_multi provinces states p hp _ _ _ _ hgo w hw with h | h
      · simp at h
      · simp [h]

end MultiParent

namespace MultiParent

/-- When state `s` does not exist, no iteration of the supply-area
member loop pushes a multi-supply-area warning for `s`. -/
theorem vsisState_no_multi (states : Int → Option StateR)
    (supplyAreas : Int → Option SupplyAreaR) (sa : SupplyAreaR) (s : Int)
    (hs : states s = none) :
    ∀ acc x res, vsisState states supplyAreas sa acc x = .ok res →
      ∀ w ∈ res.2.1, w ∈ acc.2.1 ∨ isMultiSupplyForS s w = false := by
  intro acc x res hres w hw
  unfold vsisState at hres
  dsimp only at hres
  cases hm : acc.1 x with
  | some owner =>
      simp only [hm] at hres
      cases hst : states x with
      | none =>
          simp only [hst] at hres
          cases hres
          exact Or.inl hw
      | some st =>
          have hxs : x ≠ s := by
            intro h
            rw [h, hs] at hst
            exact Option.noConfusion hst
          simp only [hst] at hres
          cases hsa : supplyAreas owner with
          | none =>
              simp only [hsa] at hres
              exact Except.noConfusion hres
          | some ownerSa =>
              simp only [hsa] at hres
              cases hres
              rcases List.mem_append.mp hw with h | h
              · exact Or.inl h
              · rw [List.mem_singleton] at h
                subst h
                right
                simp [isMultiSupplyForS, hxs]
  | none =>
      simp only [hm] at hres
      cases hst : states x with
      | none =>
          simp only [hst] at hres
          cases hres
          exact Or.inl hw
      | some st =>
          simp only [hst] at hres
          cases hres
          exact Or.inl hw

/-- One supply-area slot preserves the property: the only warning it
adds beyond the member loop is the non-contiguity warning, which is not
a multi-supply-area warning. -/
theorem vsisArea_no_multi (provinces : Int → Option Province)
    (states : Int → Option StateR) (supplyAreas : Int → Option SupplyAreaR)
    (i : Int) (sa : SupplyAreaR) (s : Int) (hs : states s = none) :
    ∀ m ws res, vsisArea provinces states supplyAreas i sa m ws = .ok res →
      ∀ w ∈ res.2, w ∈ ws ∨ isMultiSupplyForS s w = false := by
  intro m ws res hres w hw
  unfold vsisArea at hres
  cases hmid : sa.states.foldlM (vsisState states supplyAreas sa) (m, ws, []) with
  | error e =>
      simp only [hmid, Bind.bind, Except.bind] at hres
      exact Except.noConfusion hres
  | ok mid =>
      simp only [hmid, Bind.bind, Except.bind] at hres
      have hmem : ∀ w ∈ mid.2.1, w ∈ ws ∨ isMultiSupplyForS s w = false :=
        fun w hw => foldlM_warning_pred (vsisState states supplyAreas sa)
          (fun a => a.2.1) (isMultiSupplyForS s)
          (vsisState_no_multi states supplyAreas sa s hs)
          sa.states (m, ws, []) mid hmid w hw
      cases hchk : checkStatesContiguous mid.2.2 provinces with
      | error e =>
          rw [hchk] at hres
          exact Except.noConfusion hres
      | ok o =>
          rw [hchk] at hres
          cases o with
          | none =>
              simp only at hres
              cases hres
              exact hmem w hw
          | some pair =>
              simp only at hres
              obtain ⟨b0, b1⟩ := pair
              cases hres
              rcases List.mem_append.mp hw with h | h
              · exact hmem w h
              · rw [List.mem_singleton] at h
                subst h
                right
                rfl

/-- The outer supply-area loop preserves the property. -/
theorem vsisGo_no_multi (provinces : Int → Option Province)
    (states : Int → Option StateR) (supplyAreas : Int → Option SupplyAreaR)
    (s : Int) (hs : states s = none) :
    ∀ (fuel : Nat) (i : Int) acc res,
      vsisGo provinces states supplyAreas fuel i acc = .ok res →
      ∀ w ∈ res.2, w ∈ acc.2 ∨ isMultiSupplyForS s w = false := by
  intro fuel
  induction fuel with
  | zero =>
      intro i acc res hres w hw
      cases hres
      exact Or.inl hw
  | succ n ih =>
      intro i acc res hres w hw
      unfold vsisGo at hres
      cases hi : supplyAreas i with
      | none =>
          simp only [hi] at hres
          exact ih (i + 1) acc res hres w hw
      | some sa =>
          simp only [hi] at hres
          cases hmid : vsisArea provinces states supplyAreas i sa acc.1 acc.2 with
          | error e =>
              simp only [hmid, Bind.bind, Except.bind] at hres
              exact Except.noConfusion hres
          | ok mid =>
              simp only [hmid, Bind.bind, Except.bind] at hres
              rcases ih (i + 1) mid res hres w hw with h | h
              · exact vsisArea_no_multi provinces states supplyAreas i sa s hs
                  acc.1 acc.2 mid hmid w h
              · exact Or.inr h

/-- The trailing not-in-any-supply-area loop only produces
`stateNoSupplyArea` warnings. -/
theorem noSupplyAreaGo_no_multi (states : Int → Option StateR)
    (m : Int → Option Int) (s : Int) :
    ∀ (fuel : Nat) (i : Int) (w : Warning),
      w ∈ noSupplyAreaGo states m fuel i → isMultiSupplyForS s w = false := by
  intro fuel
  induction fuel with
  | zero => intro i w hw; simp [noSupplyAreaGo] at hw
  | succ n ih =>
      intro i w hw
      unfold noSupplyAreaGo at hw
      cases hi : states i with
      | none =>
          rw [hi] at hw
          exact ih (i + 1) w hw
      | some st =>
          simp only [hi] at hw
          by_cases hm : (m i).isSome
          · rw [if_pos hm] at hw
            exact ih (i + 1) w hw
          · rw [if_neg hm] at hw
            rcases List.mem_cons.mp hw with h | h
            · subst h; rfl
            · exact ih (i + 1) w h

/-- C10, supply-area half: a state id that resolves to no existing state
never receives a multi-supply-area warning from
`validateStatesInSupplyAreas`. -/
theorem validateStatesInSupplyAreas_no_multi (states : Int → Option StateR)
    (supplyAreas : Int → Option SupplyAreaR) (provinces : Int → Option Province)
    (badSupplyAreasCount saLen stLen s : Int) (hs : states s = none)
    (ws : List Warning)
    (hok : validateStatesInSupplyAreas states supplyAreas provinces
      badSupplyAreasCount saLen stLen = .ok ws) :
    ws.filter (isMultiSupplyForS s) = [] := by
  unfold validateStatesInSupplyAreas at hok
  cases hgo : vsisGo provinces states supplyAreas (saLen - badSupplyAreasCount).toNat
      badSupplyAreasCount (fun _ => none, []) with
  | error e =>
      simp only [hgo, Bind.bind, Except.bind] at hok
      exact Except.noConfusion hok
  | ok acc =>
      simp only [hgo, Bind.bind, Except.bind] at hok
      cases hok
      rw [List.filter_eq_nil_iff]
      intro w hw
      rcases List.mem_append.mp hw with h | h
      · rcases vsisGo_no_multi provinces states supplyAreas s hs _ _ _ _ hgo w h with h1 | h1
        · simp at h1
        · simp [h1]
      · simp [noSupplyAreaGo_no_multi states acc.1 s _ _ w h]

end MultiParent

/-- C10: a child id listed by parents but resolving to no existing
entity never triggers a multi-membership warning: the validators'
duplicate branch returns early on the missing child, both for provinces
claimed by several states and for states claimed by several supply
areas; the geometry pass independently emits one dangling-reference
warning per parent that lists the child. -/
theorem missing_child_no_multi_warning :
    (∀ (provinces : Int → Option Province) (states : Int → Option StateR)
        (badStatesCount len p : Int), provinces p = none →
      ∀ ws, validateProvinceInState provinces states badStatesCount len = .ok ws →
        ws.filter (MultiParent.isMultiStateForP p) = []) ∧
    (∀ (states : Int → Option StateR) (supplyAreas : Int → Option SupplyAreaR)
        (provinces : Int → Option Province) (badSupplyAreasCount saLen stLen s : Int),
      states s = none →
      ∀ ws, validateStatesInSupplyAreas states supplyAreas provinces
          badSupplyAreasCount saLen stLen = .ok ws →
        ws.filter (MultiParent.isMultiSupplyForS s) = []) ∧
    (∀ (st : RawState) (provinces : Int → Option Province) (width height p : Int),
      p ∈ st.provinces → provinces p = none →
      stateDanglingWarning st p ∈ (calculateBoundingBox st provinces width height).2) := by
  refine ⟨?_, ?_, ?_⟩
  · intro provinces states badStatesCount len p hp ws hok
    exact MultiParent.validateProvinceInState_no_multi provinces states badStatesCount len p
      hp ws hok
  · intro states supplyAreas provinces badSupplyAreasCount saLen stLen s hs ws hok
    exact MultiParent.validateStatesInSupplyAreas_no_multi states supplyAreas provinces
      badSupplyAreasCount saLen stLen s hs ws hok
  · intro st provinces width height p hmem hp
    unfold calculateBoundingBox
    dsimp only
    have hmem1 : stateDanglingWarning st p ∈
        (st.provinces.filter (fun q => (provinces q).isNone)).map (stateDanglingWarning st) := by
      apply List.mem_map_of_mem
      rw [List.mem_filter]
      exact ⟨hmem, by rw [hp]; rfl⟩
    by_cases hlen : (st.provinces.filterMap provinces).length > 0
    · rw [if_pos hlen]
      exact List.mem_append_left _ hmem1
    · rw [if_neg hlen]
      exact List.mem_append_left _ hmem1

/-- Witness: two states both listing the unresolvable province 3 and
two supply areas both listing the unresolvable state 5 produce no
multi-membership warning; the geometry pass produces the dangling
warning. -/
theorem missing_child_no_multi_warning_witness :
    (∃ ws, validateProvinceInState (fun _ => none)
        (fun k => if k = 1 then some ⟨1, "a", [3], ⟨0, 0, 0, 0⟩, ⟨0, 0⟩, 0⟩
                  else if k = 2 then some ⟨2, "b", [3], ⟨0, 0, 0, 0⟩, ⟨0, 0⟩, 0⟩ else none)
        0 3 = .ok ws ∧ ws.filter (MultiParent.isMultiStateForP 3) = []) ∧
    (∃ ws, validateStatesInSupplyAreas (fun _ => none)
        (fun k => if k = 1 then some ⟨1, "sa", [5], ⟨0, 0, 0, 0⟩, ⟨0, 0⟩, 0⟩
                  else if k = 2 then some ⟨2, "sb", [5], ⟨0, 0, 0, 0⟩, ⟨0, 0⟩, 0⟩ else none)
        (fun _ => none) 0 3 1 = .ok ws ∧
      ws.filter (MultiParent.isMultiSupplyForS 5) = []) ∧
    stateDanglingWarning ⟨1, "a", [3]⟩ 3 ∈
      (calculateBoundingBox ⟨1, "a", [3]⟩ (fun _ => none) 100 100).2 := by
  refine ⟨⟨_, rfl, ?_⟩, ⟨_, rfl, ?_⟩, ?_⟩
  · exact missing_child_no_multi_warning.1 (fun _ => none)
      (fun k => if k = 1 then some ⟨1, "a", [3], ⟨0, 0, 0, 0⟩, ⟨0, 0⟩, 0⟩
                else if k = 2 then some ⟨2, "b", [3], ⟨0, 0, 0, 0⟩, ⟨0, 0⟩, 0⟩ else none)
      0 3 3 rfl _ rfl
  · exact missing_child_no_multi_warning.2.1 (fun _ => none)
      (fun k => if k = 1 then some ⟨1, "sa", [5], ⟨0, 0, 0, 0⟩, ⟨0, 0⟩, 0⟩
                else if k = 2 then some ⟨2, "sb", [5], ⟨0, 0, 0, 0⟩, ⟨0, 0⟩, 0⟩ else none)
      (fun _ => none) 0 3 1 5 rfl _ rfl
  · exact missing_child_no_multi_warning.2.2 ⟨1, "a", [3]⟩ (fun _ => none) 100 100 3
      (List.mem_singleton.mpr rfl) rfl

/-! ## Loader reload propagation (StatesLoader.shouldReload in part_003 lines 65-67,
StrategicRegionsLoader.shouldReload in part_002 lines 42-44,
SupplyAreasLoader.shouldReloadImpl in supplyarea.ts lines 41-43).

Modelled from the spec: the FolderLoader base class lives in loader/common.ts,
which is absent from the sources; its own-tracked-files-changed check
(`super.shouldReload()` / `super.shouldReloadImpl()`) is abstracted as one
boolean flag per loader. Each derived loader's override is translated from the
source: a short-circuit disjunction of the base check with the dependency
loaders' `shouldReload()` calls, in source order. -/

/-- One flag per loader for "the loader's own tracked files changed". -/
structure LoaderFlags where
  defaultMapOwnChanged : Bool
  statesOwnChanged : Bool
  strategicRegionsOwnChanged : Bool
  supplyAreasOwnChanged : Bool
  deriving Repr, DecidableEq

/-- The default-map (provinces) loader has no dependency loaders: its
shouldReload is the base check alone. -/
def defaultMapShouldReload (f : LoaderFlags) : Bool :=
  f.defaultMapOwnChanged

/-- part_003 lines 65-67: `super.shouldReload() || this.defaultMapLoader.shouldReload()`. -/
def statesShouldReload (f : LoaderFlags) : Bool :=
  f.statesOwnChanged || defaultMapShouldReload f

/-- part_002 lines 42-44:
`super.shouldReload() || this.defaultMapLoader.shouldReload() || this.statesLoader.shouldReload()`. -/
def strategicRegionsShouldReload (f : LoaderFlags) : Bool :=
  f.strategicRegionsOwnChanged || defaultMapShouldReload f || statesShouldReload f

/-- supplyarea.ts lines 41-43:
`super.shouldReloadImpl() || this.defaultMapLoader.shouldReload() || this.statesLoader.shouldReload()`. -/
def supplyAreasShouldReloadImpl (f : LoaderFlags) : Bool :=
  f.supplyAreasOwnChanged || defaultMapShouldReload f || statesShouldReload f

/-- C8: if the default-map (provinces) loader's shouldReload returns true, then
the States, Strategic Regions and Supply Areas loaders' shouldReload each
return true, regardless of their own tracked-files flags. -/
theorem dependent_loaders_reload (f : LoaderFlags)
    (h : defaultMapShouldReload f = true) :
    statesShouldReload f = true ∧ strategicRegionsShouldReload f = true ∧
      supplyAreasShouldReloadImpl f = true := by
  refine ⟨?_, ?_, ?_⟩ <;>
    simp [statesShouldReload, strategicRegionsShouldReload,
      supplyAreasShouldReloadImpl, h]

/-- Witness: only the province (default map) flag is set; all three dependent
loaders still report true. -/
theorem dependent_loaders_reload_witness :
    defaultMapShouldReload ⟨true, false, false, false⟩ = true ∧
      (statesShouldReload ⟨true, false, false, false⟩ = true ∧
        strategicRegionsShouldReload ⟨true, false, false, false⟩ = true ∧
        supplyAreasShouldReloadImpl ⟨true, false, false, false⟩ = true) :=
  ⟨rfl, dependent_loaders_reload ⟨true, false, false, false⟩ rfl⟩

/-! ## Webview diff messages (contentbuilder.ts lines 198-360)

The WorldMap webview panel: `sendDifferences` (lines 271-313) compares the
cached and freshly loaded world-map snapshots, queues coalesced change
messages in a local array, and posts them only when every list diff stayed
within the limits; `fillMessageForItem` (lines 315-360) walks one list and
pushes one ranged message per maximal changed run, force-flushing a run after
300 consecutive changed entries and aborting the whole diff when the shared
queue exceeds 30 messages. `sendProvinceMapSummaryToWebview` (lines 198-228)
falls back to a single full-snapshot provincemapsummary message when
`sendDifferences` returns false. Progress-reporting posts (command
'progress'), which carry no map data, are omitted from the model; the modelled
posted-message list contains only the change and summary messages. -/

/-- Modelled from the spec: `slice` lives in util/common.ts, which is absent
from the sources; a ranged message's data is the list entries at indices
start..end-1, with missing array slots as `none`. -/
def sliceFn {δ : Type} (list : Int → Option δ) (s e : Int) : List (Option δ) :=
  (List.range (e - s).toNat).map (fun k => list (s + (k : Int)))

/-- Payload of the provincemapsummary message (contentbuilder.ts lines
210-216): the snapshot with colorByPosition dropped and the provinces,
states and countries lists emptied. -/
structure SummaryData where
  width : Int
  height : Int
  provincesCount : Int
  statesCount : Int
  countriesCount : Int
  badProvincesCount : Int
  badStatesCount : Int
  warnings : List Warning
  continents : List String
  terrains : List String

/-- The world-map messages posted to the webview renderer, with the list
payload types as parameters (provinces, states, countries). -/
inductive MapMsg (α β γ : Type) where
  /-- command 'warnings': the whole warnings list. -/
  | warningsMsg (data : List Warning)
  /-- command 'continents': the whole continents list. -/
  | continentsMsg (data : List String)
  /-- command 'terrains': the whole terrains list. -/
  | terrainsMsg (data : List String)
  /-- command 'provinces': entries start..end-1 of the provinces list. -/
  | provincesRange (data : List (Option α)) (start endI : Int)
  /-- command 'states': entries start..end-1 of the states list. -/
  | statesRange (data : List (Option β)) (start endI : Int)
  /-- command 'countries': entries start..end-1 of the countries list. -/
  | countriesRange (data : List (Option γ)) (start endI : Int)
  /-- command 'provincemapsummary': the full snapshot without the lists. -/
  | provincemapsummary (data : SummaryData)

/-- The world-map snapshot as consumed by sendDifferences: the seven scalar
fields compared wholesale, the three wholesale-compared lists, and the three
element lists diffed by fillMessageForItem (JS sparse arrays as functions to
Option). -/
structure WorldMapDataM (α β γ : Type) where
  width : Int
  height : Int
  provincesCount : Int
  statesCount : Int
  countriesCount : Int
  badProvincesCount : Int
  badStatesCount : Int
  warnings : List Warning
  continents : List String
  terrains : List String
  provinces : Int → Option α
  states : Int → Option β
  countries : Int → Option γ

/-- The summary built at contentbuilder.ts lines 210-216 from a snapshot. -/
def toSummary {α β γ : Type} (w : WorldMapDataM α β γ) : SummaryData :=
  ⟨w.width, w.height, w.provincesCount, w.statesCount, w.countriesCount,
    w.badProvincesCount, w.badStatesCount, w.warnings, w.continents, w.terrains⟩

/-- The loop of fillMessageForItem (contentbuilder.ts lines 326-357): `i` runs
from listStart to listEnd inclusive, `lastDiff` is lastDifferenceStart, `msgs`
is the shared changeMessages queue in push order; a push is followed by the
`length > changeMessagesCountLimit (30)` check, and `none` models the
`return false` abort. Fuel counts the remaining loop iterations. -/
def fillGo {α β γ δ : Type} [DecidableEq δ]
    (mk : List (Option δ) → Int → Int → MapMsg α β γ)
    (list cached : Int → Option δ) (listEnd : Int) :
    Nat → Int → Option Int → List (MapMsg α β γ) → Option (List (MapMsg α β γ))
  | 0, _, _, msgs => some msgs
  | fuel + 1, i, lastDiff, msgs =>
    if i = listEnd ∨ list i = cached i then
      match lastDiff with
      | some ld =>
        if 30 < (msgs ++ [mk (sliceFn list ld i) ld i]).length then none
        else fillGo mk list cached listEnd fuel (i + 1) none
          (msgs ++ [mk (sliceFn list ld i) ld i])
      | none => fillGo mk list cached listEnd fuel (i + 1) none msgs
    else
      match lastDiff with
      | none => fillGo mk list cached listEnd fuel (i + 1) (some i) msgs
      | some ld =>
        if 300 ≤ i - ld then
          if 30 < (msgs ++ [mk (sliceFn list ld i) ld i]).length then none
          else fillGo mk list cached listEnd fuel (i + 1) (some i)
            (msgs ++ [mk (sliceFn list ld i) ld i])
        else fillGo mk list cached listEnd fuel (i + 1) (some ld) msgs

/-- fillMessageForItem (contentbuilder.ts lines 315-360): run the loop for the
iterations i = listStart..listEnd with lastDifferenceStart undefined. -/
def fillMessageForItem {α β γ δ : Type} [DecidableEq δ]
    (mk : List (Option δ) → Int → Int → MapMsg α β γ)
    (list cached : Int → Option δ) (listStart listEnd : Int)
    (msgs : List (MapMsg α β γ)) : Option (List (MapMsg α β γ)) :=
  fillGo mk list cached listEnd (listEnd - listStart + 1).toNat listStart none msgs

/-- The number of ranged messages the fillMessageForItem loop produces for one
list when no queue limit applies: same branching as fillGo, counting pushes. -/
def fillCountGo {δ : Type} [DecidableEq δ]
    (list cached : Int → Option δ) (listEnd : Int) :
    Nat → Int → Option Int → Nat
  | 0, _, _ => 0
  | fuel + 1, i, lastDiff =>
    if i = listEnd ∨ list i = cached i then
      match lastDiff with
      | some _ => 1 + fillCountGo list cached listEnd fuel (i + 1) none
      | none => fillCountGo list cached listEnd fuel (i + 1) none
    else
      match lastDiff with
      | none => fillCountGo list cached listEnd fuel (i + 1) (some i)
      | some ld =>
        if 300 ≤ i - ld then 1 + fillCountGo list cached listEnd fuel (i + 1) (some i)
        else fillCountGo list cached listEnd fuel (i + 1) (some ld)

/-- Unbounded message count for one list diff. -/
def fillCount {δ : Type} [DecidableEq δ]
    (list cached : Int → Option δ) (listStart listEnd : Int) : Nat :=
  fillCountGo list cached listEnd (listEnd - listStart + 1).toNat listStart none

/-- The seven wholesale-compared scalar fields of sendDifferences
(contentbuilder.ts lines 275-279). -/
def scalarFieldsEqual {α β γ : Type} (c w : WorldMapDataM α β γ) : Prop :=
  c.width = w.width ∧ c.height = w.height ∧ c.provincesCount = w.provincesCount ∧
  c.statesCount = w.statesCount ∧ c.countriesCount = w.countriesCount ∧
  c.badProvincesCount = w.badProvincesCount ∧ c.badStatesCount = w.badStatesCount

instance {α β γ : Type} (c w : WorldMapDataM α β γ) :
    Decidable (scalarFieldsEqual c w) := by
  unfold scalarFieldsEqual; infer_instance

/-- The wholesale change messages pushed before the ranged fills
(contentbuilder.ts lines 281-291), in push order. -/
def scalarMsgs {α β γ : Type} (c w : WorldMapDataM α β γ) : List (MapMsg α β γ) :=
  (if c.warnings = w.warnings then [] else [MapMsg.warningsMsg w.warnings]) ++
  (if c.continents = w.continents then [] else [MapMsg.continentsMsg w.continents]) ++
  (if c.terrains = w.terrains then [] else [MapMsg.terrainsMsg w.terrains])

/-- sendDifferences (contentbuilder.ts lines 271-313). The boolean is its
return value; the list holds the messages it posts to the webview: the queued
change messages when every fill stayed within the limit, nothing when it
returns false (the local queue is discarded unposted). -/
def sendDifferences {α β γ : Type} [DecidableEq α] [DecidableEq β] [DecidableEq γ]
    (cached w : WorldMapDataM α β γ) : Bool × List (MapMsg α β γ) :=
  if ¬ scalarFieldsEqual cached w then (false, [])
  else
    match fillMessageForItem MapMsg.provincesRange w.provinces cached.provinces
        w.badProvincesCount w.provincesCount (scalarMsgs cached w) with
    | none => (false, [])
    | some m4 =>
      match fillMessageForItem MapMsg.statesRange w.states cached.states
          w.badStatesCount w.statesCount m4 with
      | none => (false, [])
      | some m5 =>
        match fillMessageForItem MapMsg.countriesRange w.countries cached.countries
            0 w.countriesCount m5 with
        | none => (false, [])
        | some m6 => (true, m6)

/-- The cache-present, force=false path of sendProvinceMapSummaryToWebview
(contentbuilder.ts lines 198-220): the map messages posted to the webview —
the diff messages when sendDifferences succeeds, otherwise a single
provincemapsummary message with the full snapshot. -/
def sendProvinceMapSummaryMessages {α β γ : Type}
    [DecidableEq α] [DecidableEq β] [DecidableEq γ]
    (cached w : WorldMapDataM α β γ) : List (MapMsg α β γ) :=
  match sendDifferences cached w with
  | (true, msgs) => msgs
  | (false, _) => [MapMsg.provincemapsummary (toSummary w)]

/-- Total number of change messages the diff would queue with no queue limit:
the wholesale messages plus the unbounded ranged-message count of each of the
three list diffs. -/
def unlimitedMessageCount {α β γ : Type} [DecidableEq α] [DecidableEq β] [DecidableEq γ]
    (cached w : WorldMapDataM α β γ) : Nat :=
  (scalarMsgs cached w).length +
  fillCount w.provinces cached.provinces w.badProvincesCount w.provincesCount +
  fillCount w.states cached.states w.badStatesCount w.statesCount +
  fillCount w.countries cached.countries 0 w.countriesCount

/-- One loop of fillMessageForItem aborts exactly when the running queue plus
the remaining unbounded push count exceeds 30, and on success the queue grew
by exactly that count. -/
theorem fillGo_spec {α β γ δ : Type} [DecidableEq δ]
    (mk : List (Option δ) → Int → Int → MapMsg α β γ)
    (list cached : Int → Option δ) (listEnd : Int) :
    ∀ (fuel : Nat) (i : Int) (lastDiff : Option Int) (msgs : List (MapMsg α β γ)),
      msgs.length ≤ 30 →
      (fillGo mk list cached listEnd fuel i lastDiff msgs = none ↔
        30 < msgs.length + fillCountGo list cached listEnd fuel i lastDiff) ∧
      (∀ m, fillGo mk list cached listEnd fuel i lastDiff msgs = some m →
        m.length = msgs.length + fillCountGo list cached listEnd fuel i lastDiff) := by
  intro fuel
  induction fuel with
  | zero =>
    intro i lastDiff msgs hle
    refine ⟨?_, ?_⟩
    · simp only [fillGo, fillCountGo]
      constructor
      · intro h; exact Option.noConfusion h
      · intro h; omega
    · intro m hm
      simp only [fillGo] at hm
      have hm2 := Option.some.inj hm
      subst hm2
      simp [fillCountGo]
  | succ n ih =>
    intro i lastDiff msgs hle
    by_cases hc : i = listEnd ∨ list i = cached i
    · cases lastDiff with
      | none =>
        have e1 : fillGo mk list cached listEnd (n + 1) i none msgs =
            fillGo mk list cached listEnd n (i + 1) none msgs := by
          simp only [fillGo]; rw [if_pos hc]
        have e2 : fillCountGo list cached listEnd (n + 1) i none =
            fillCountGo list cached listEnd n (i + 1) none := by
          simp only [fillCountGo]; rw [if_pos hc]
        rw [e1, e2]
        exact ih (i + 1) none msgs hle
      | some ld =>
        by_cases hlen : 30 < (msgs ++ [mk (sliceFn list ld i) ld i]).length
        · have e1 : fillGo mk list cached listEnd (n + 1) i (some ld) msgs = none := by
            simp only [fillGo]; rw [if_pos hc]; rw [if_pos hlen]
          have e2 : fillCountGo list cached listEnd (n + 1) i (some ld) =
              1 + fillCountGo list cached listEnd n (i + 1) none := by
            simp only [fillCountGo]; rw [if_pos hc]
          rw [e1, e2]
          simp only [List.length_append, List.length_cons, List.length_nil] at hlen
          refine ⟨⟨fun _ => by omega, fun _ => rfl⟩, ?_⟩
          intro m hm; exact Option.noConfusion hm
        · have hle2 : (msgs ++ [mk (sliceFn list ld i) ld i]).length ≤ 30 := by omega
          have e1 : fillGo mk list cached listEnd (n + 1) i (some ld) msgs =
              fillGo mk list cached listEnd n (i + 1) none
                (msgs ++ [mk (sliceFn list ld i) ld i]) := by
            simp only [fillGo]; rw [if_pos hc]; rw [if_neg hlen]
          have e2 : fillCountGo list cached listEnd (n + 1) i (some ld) =
              1 + fillCountGo list cached listEnd n (i + 1) none := by
            simp only [fillCountGo]; rw [if_pos hc]
          obtain ⟨ih1, ih2⟩ := ih (i + 1) none (msgs ++ [mk (sliceFn list ld i) ld i]) hle2
          rw [e1, e2, ih1]
          have hms : (msgs ++ [mk (sliceFn list ld i) ld i]).length = msgs.length + 1 := by
            simp
          refine ⟨by omega, ?_⟩
          intro m hm
          have := ih2 m hm
          omega
    · cases lastDiff with
      | none =>
        have e1 : fillGo mk list cached listEnd (n + 1) i none msgs =
            fillGo mk list cached listEnd n (i + 1) (some i) msgs := by
          simp only [fillGo]; rw [if_neg hc]
        have e2 : fillCountGo list cached listEnd (n + 1) i none =
            fillCountGo list cached listEnd n (i + 1) (some i) := by
          simp only [fillCountGo]; rw [if_neg hc]
        rw [e1, e2]
        exact ih (i + 1) (some i) msgs hle
      | some ld =>
        by_cases hfar : (300 : Int) ≤ i - ld
        · by_cases hlen : 30 < (msgs ++ [mk (sliceFn list ld i) ld i]).length
          · have e1 : fillGo mk list cached listEnd (n + 1) i (some ld) msgs = none := by
              simp only [fillGo]; rw [if_neg hc]; rw [if_pos hfar]; rw [if_pos hlen]
            have e2 : fillCountGo list cached listEnd (n + 1) i (some ld) =
                1 + fillCountGo list cached listEnd n (i + 1) (some i) := by
              simp only [fillCountGo]; rw [if_neg hc]; rw [if_pos hfar]
            rw [e1, e2]
            simp only [List.length_append, List.length_cons, List.length_nil] at hlen
            refine ⟨⟨fun _ => by omega, fun _ => rfl⟩, ?_⟩
            intro m hm; exact Option.noConfusion hm
          · have hle2 : (msgs ++ [mk (sliceFn list ld i) ld i]).length ≤ 30 := by omega
            have e1 : fillGo mk list cached listEnd (n + 1) i (some ld) msgs =
                fillGo mk list cached listEnd n (i + 1) (some i)
                  (msgs ++ [mk (sliceFn list ld i) ld i]) := by
              simp only [fillGo]; rw [if_neg hc]; rw [if_pos hfar]; rw [if_neg hlen]
            have e2 : fillCountGo list cached listEnd (n + 1) i (some ld) =
                1 + fillCountGo list cached listEnd n (i + 1) (some i) := by
              simp only [fillCountGo]; rw [if_neg hc]; rw [if_pos hfar]
            obtain ⟨ih1, ih2⟩ := ih (i + 1) (some i) (msgs ++ [mk (sliceFn list ld i) ld i]) hle2
            rw [e1, e2, ih1]
            have hms : (msgs ++ [mk (sliceFn list ld i) ld i]).length = msgs.length + 1 := by
              simp
            refine ⟨by omega, ?_⟩
            intro m hm
            have := ih2 m hm
            omega
        · have e1 : fillGo mk list cached listEnd (n + 1) i (some ld) msgs =
              fillGo mk list cached listEnd n (i + 1) (some ld) msgs := by
            simp only [fillGo]; rw [if_neg hc]; rw [if_neg hfar]
          have e2 : fillCountGo list cached listEnd (n + 1) i (some ld) =
              fillCountGo list cached listEnd n (i + 1) (some ld) := by
            simp only [fillCountGo]; rw [if_neg hc]; rw [if_neg hfar]
          rw [e1, e2]
          exact ih (i + 1) (some ld) msgs hle

/-- fillMessageForItem aborts exactly when the incoming queue plus this list's
unbounded message count exceeds 30; on success the queue grew by that count. -/
theorem fillMessageForItem_spec {α β γ δ : Type} [DecidableEq δ]
    (mk : List (Option δ) → Int → Int → MapMsg α β γ)
    (list cached : Int → Option δ) (listStart listEnd : Int)
    (msgs : List (MapMsg α β γ)) (hle : msgs.length ≤ 30) :
    (fillMessageForItem mk list cached listStart listEnd msgs = none ↔
      30 < msgs.length + fillCount list cached listStart listEnd) ∧
    (∀ m, fillMessageForItem mk list cached listStart listEnd msgs = some m →
      m.length = msgs.length + fillCount list cached listStart listEnd) := by
  unfold fillMessageForItem fillCount
  exact fillGo_spec mk list cached listEnd (listEnd - listStart + 1).toNat listStart none
    msgs hle

/-- At most three wholesale change messages are pushed before the fills. -/
theorem scalarMsgs_length_le {α β γ : Type} (c w : WorldMapDataM α β γ) :
    (scalarMsgs c w).length ≤ 3 := by
  unfold scalarMsgs
  split <;> split <;> split <;> simp

/-- C2: whenever diffing the cached snapshot against the new one would queue
more than 30 change messages in total, sendDifferences abandons the diff and
returns false with no change message posted to the renderer, and the summary
sender posts a single full-snapshot provincemapsummary message instead. -/
theorem sendDifferences_limit {α β γ : Type}
    [DecidableEq α] [DecidableEq β] [DecidableEq γ]
    (cached w : WorldMapDataM α β γ)
    (h : 30 < unlimitedMessageCount cached w) :
    sendDifferences cached w = (false, []) ∧
    sendProvinceMapSummaryMessages cached w =
      [MapMsg.provincemapsummary (toSummary w)] := by
  have h1 : sendDifferences cached w = (false, []) := by
    unfold sendDifferences
    by_cases hsc : scalarFieldsEqual cached w
    · rw [if_neg (not_not_intro hsc)]
      unfold unlimitedMessageCount at h
      have hs3 : (scalarMsgs cached w).length ≤ 3 := scalarMsgs_length_le cached w
      cases hp : fillMessageForItem MapMsg.provincesRange w.provinces cached.provinces
          w.badProvincesCount w.provincesCount (scalarMsgs cached w) with
      | none => simp only [hp]
      | some m4 =>
        obtain ⟨hp1, hp2⟩ := fillMessageForItem_spec MapMsg.provincesRange
          w.provinces cached.provinces w.badProvincesCount w.provincesCount
          (scalarMsgs cached w) (by omega)
        have hm4 := hp2 m4 hp
        have hm4le : m4.length ≤ 30 := by
          by_contra hgt
          rw [hp1.mpr (by omega)] at hp
          exact Option.noConfusion hp
        simp only [hp]
        cases hst : fillMessageForItem MapMsg.statesRange w.states cached.states
            w.badStatesCount w.statesCount m4 with
        | none => simp only
        | some m5 =>
          obtain ⟨hs1, hs2⟩ := fillMessageForItem_spec MapMsg.statesRange
            w.states cached.states w.badStatesCount w.statesCount m4 hm4le
          have hm5 := hs2 m5 hst
          have hm5le : m5.length ≤ 30 := by
            by_contra hgt
            rw [hs1.mpr (by omega)] at hst
            exact Option.noConfusion hst
          simp only [hst]
          cases hco : fillMessageForItem MapMsg.countriesRange w.countries cached.countries
              0 w.countriesCount m5 with
          | none => simp only
          | some m6 =>
            obtain ⟨hc1, hc2⟩ := fillMessageForItem_spec MapMsg.countriesRange
              w.countries cached.countries 0 w.countriesCount m5 hm5le
            have hm6 := hc2 m6 hco
            have hm6le : m6.length ≤ 30 := by
              by_contra hgt
              rw [hc1.mpr (by omega)] at hco
              exact Option.noConfusion hco
            exact absurd rfl (by omega : ¬ m6 = m6)
    · rw [if_pos hsc]
  refine ⟨h1, ?_⟩
  unfold sendProvinceMapSummaryMessages
  rw [h1]

/-- A cached snapshot for exercising the diff limit: 62 provinces, all absent. -/
def c2Cached : WorldMapDataM Int Int Int where
  width := 100
  height := 100
  provincesCount := 62
  statesCount := 0
  countriesCount := 0
  badProvincesCount := 0
  badStatesCount := 0
  warnings := []
  continents := []
  terrains := []
  provinces := fun _ => none
  states := fun _ => none
  countries := fun _ => none

/-- The new snapshot: identical except the provinces list differs at the 31
odd indices 1, 3, ..., 61 — 31 disjoint single-index changed runs. -/
def c2New : WorldMapDataM Int Int Int :=
  { c2Cached with
    provinces := fun i => if i % 2 = 1 ∧ 0 ≤ i ∧ i ≤ 61 then some 1 else none }

/-- Witness: the 31 disjoint single-index runs would queue 31 > 30 messages,
so the diff is abandoned with nothing posted and a single provincemapsummary
message is sent instead. -/
theorem sendDifferences_limit_witness :
    30 < unlimitedMessageCount c2Cached c2New ∧
    sendDifferences c2Cached c2New = (false, []) ∧
    sendProvinceMapSummaryMessages c2Cached c2New =
      [MapMsg.provincemapsummary (toSummary c2New)] :=
  ⟨by decide, (sendDifferences_limit c2Cached c2New (by decide)).1,
    (sendDifferences_limit c2Cached c2New (by decide)).2⟩
